import Mathlib

/-
Shallow embedding of the LHD (Least Hit Density) ranker from
src/unnamed/part_000 (the repository's lhd.cpp).  The C++ `rank_t`
(double) is modelled by `ℚ`, so every histogram operation is exact;
machine counters (`timestamp`, indices, shifts) are modelled by `Nat`.
The companion header lhd.hpp (constants, `Tag`/`Class` layout, `getAge`,
`getClass`, `getHitDensity`, the RNG) is not part of src/, so those
pieces are modelled from the specification and marked as such in their
doc comments.  Fallible entry points (`rank`, `replaced`) return
`Except`, following the spec's error taxonomy; the C++ realises those
failure cases as assertion failures before any mutation.
-/

namespace LHD

/-- Error taxonomy of the ranker's public API (spec section 7). -/
inductive Err where
  | Empty
  | Unknown
deriving DecidableEq, Repr

/-- Modelled from the spec: parser::Request is not in src/; the core reads
only `appId` and `size()` (spec section 6), both machine integers. -/
structure Request where
  appId : Nat
  size : Nat
deriving DecidableEq, Repr

/-- Modelled from the spec: the Tag record of lhd.hpp (spec section 3),
one per resident object.  `timestamp` stores the coarsened clock. -/
structure Tag where
  id : Nat
  timestamp : Nat
  lastHitAge : Nat
  lastLastHitAge : Nat
  app : Nat
  size : Nat
deriving DecidableEq, Repr

instance : Inhabited Tag := ⟨{ id := 0, timestamp := 0, lastHitAge := 0,
                               lastLastHitAge := 0, app := 0, size := 0 }⟩

/-- Modelled from the spec: the per-class statistics bucket of lhd.hpp
(spec section 3).  The C++ vectors of length MAX_AGE are modelled as
total functions; every access the code performs is in bounds. -/
structure Class where
  hits : Nat → ℚ
  evictions : Nat → ℚ
  hitDensities : Nat → ℚ
  totalHits : ℚ
  totalEvictions : ℚ

/-- Modelled from the spec: the build-time constants of lhd.hpp (spec
section 3) together with the RNG of rand.hpp.  The spec fixes only that
the generator is a deterministic seedable stream, so its transition
function (state to drawn value and next state) is a parameter. -/
structure Params where
  MAX_AGE : Nat
  APP_CLASSES : Nat
  HIT_AGE_CLASSES : Nat
  ACCS_PER_RECONFIGURATION : Nat
  EWMA_DECAY : ℚ
  AGE_COARSENING_ERROR_TOLERANCE : ℚ
  ASSOCIATIVITY : Nat
  rngNext : Nat → Nat × Nat

/-- NUM_CLASSES = APP_CLASSES * HIT_AGE_CLASSES (spec section 6). -/
def Params.NUM_CLASSES (p : Params) : Nat := p.APP_CLASSES * p.HIT_AGE_CLASSES

/-- The mutable model state of the ranker (spec section 3).
`cacheNumObjects` is the harness-reported resident-object count the
constructor handle exposes read-only (cache->getNumObjects()). -/
structure State where
  tags : List Tag
  indices : List (Nat × Nat)
  classes : Nat → Class
  timestamp : Nat
  ageCoarseningShift : Nat
  nextReconfiguration : Nat
  numReconfigurations : Nat
  overflows : Nat
  ewmaNumObjects : ℚ
  ewmaNumObjectsMass : ℚ
  rng : Nat
  cacheNumObjects : Nat

/-- Pointwise update of a `Nat`-indexed family, used to model writes to a
single vector slot or to a single class. -/
def setF {α : Type} (f : Nat → α) (i : Nat) (v : α) : Nat → α :=
  fun a => if a = i then v else f a

/-- Update of one class inside the class table. -/
def setClassF (f : Nat → Class) (c : Nat) (g : Class → Class) : Nat → Class :=
  fun c' => if c' = c then g (f c') else f c'

/-- Lookup in the id-to-position index (std::unordered_map::find). -/
def idxFind : List (Nat × Nat) → Nat → Option Nat
  | [], _ => none
  | q :: m, id => if q.1 = id then some q.2 else idxFind m id

/-- Replacement of the value stored under a present key. -/
def idxSetVal : List (Nat × Nat) → Nat → Nat → List (Nat × Nat)
  | [], _, _ => []
  | q :: m, id, v => if q.1 = id then (id, v) :: idxSetVal m id v else q :: idxSetVal m id v

/-- Write through operator[]: replace the value when the key is present,
append a fresh entry otherwise. -/
def idxSet (m : List (Nat × Nat)) (id v : Nat) : List (Nat × Nat) :=
  if (idxFind m id).isSome then idxSetVal m id v else m ++ [(id, v)]

/-- Erase of the entry with the given key (std::unordered_map::erase;
the index invariant keeps keys unique, so at most one entry matches). -/
def idxErase : List (Nat × Nat) → Nat → List (Nat × Nat)
  | [], _ => []
  | q :: m, id => if q.1 = id then idxErase m id else q :: idxErase m id

/-- Structural base-2 logarithm (floor), by fuel so that it evaluates by
kernel reduction; `log2b n = Nat.log2 n` for the small inputs used here. -/
def log2bAux : Nat → Nat → Nat
  | 0, _ => 0
  | fuel + 1, n => if n ≤ 1 then 0 else log2bAux fuel (n / 2) + 1

/-- Floor base-2 logarithm. -/
def log2b (n : Nat) : Nat := log2bAux n n

/-- Modelled from the spec: getAge of lhd.hpp (spec section 4.2):
`min(timestamp >> ageCoarseningShift - tag.timestamp, MAX_AGE - 1)`;
when the raw difference meets or exceeds MAX_AGE the result is clamped
and the Bool reports that `overflows` must be incremented. -/
def getAge (p : Params) (shift ts : Nat) (t : Tag) : Nat × Bool :=
  let raw := (ts >>> shift) - t.timestamp
  if p.MAX_AGE ≤ raw then (p.MAX_AGE - 1, true) else (raw, false)

/-- Modelled from the spec: the hit-age component of getClass (spec
section 4.2, the documented simplest faithful mapping): a tag that has
seen no hit (its constructor marker lastLastHitAge = MAX_AGE is intact)
maps to bin 0; otherwise lastHitAge is bucketed by log2 into the
remaining HIT_AGE_CLASSES - 1 bins. -/
def hitAgeClass (p : Params) (t : Tag) : Nat :=
  if t.lastLastHitAge = p.MAX_AGE then 0
  else min (log2b t.lastHitAge + 1) (p.HIT_AGE_CLASSES - 1)

/-- Modelled from the spec: getClass of lhd.hpp (spec section 4.2):
`tag.app * HIT_AGE_CLASSES + hitAgeClass(tag)`. -/
def getClass (p : Params) (t : Tag) : Nat :=
  t.app * p.HIT_AGE_CLASSES + hitAgeClass p t

/-- Modelled from the spec: getHitDensity of lhd.hpp (spec section 4.4):
the density at the tag's class and age divided by max(1, size); the Bool
forwards getAge's overflow report. -/
def getHitDensity (p : Params) (s : State) (t : Tag) : ℚ × Bool :=
  let ao := getAge p s.ageCoarseningShift s.timestamp t
  (((s.classes (getClass p t)).hitDensities ao.1) / ((max 1 t.size : Nat) : ℚ), ao.2)

/-- Sum of `f` over the ages in [a, M). -/
def tailSum (f : Nat → ℚ) (M a : Nat) : ℚ :=
  ((List.range' a (M - a)).map f).sum

/-- The threshold 1e-5 of LHD::modelHitDensity, exact in ℚ. -/
def eps : ℚ := 1 / 100000

/-- LHD::updateClass: every bin is multiplied by EWMA_DECAY and the
totals are recomputed as the sums of the decayed bins (the C++ loop
decays bin `a` and immediately accumulates the decayed value). -/
def updateClass (p : Params) (cl : Class) : Class :=
  { cl with
    hits := fun a => if a < p.MAX_AGE then cl.hits a * p.EWMA_DECAY else cl.hits a,
    evictions := fun a => if a < p.MAX_AGE then cl.evictions a * p.EWMA_DECAY else cl.evictions a,
    totalHits := tailSum (fun a => cl.hits a * p.EWMA_DECAY) p.MAX_AGE 0,
    totalEvictions := tailSum (fun a => cl.evictions a * p.EWMA_DECAY) p.MAX_AGE 0 }

/-- One iteration of the reverse sweep of LHD::modelHitDensity: fold the
current age into totalHits, totalEvents and the unconditioned-lifetime
accumulator, then write the density at this age. -/
def sweepBody (h e : Nat → ℚ) (acc : ℚ × ℚ × ℚ × (Nat → ℚ)) (a : Nat) :
    ℚ × ℚ × ℚ × (Nat → ℚ) :=
  let tH := acc.1 + h a
  let tE := acc.2.1 + h a + e a
  let L := acc.2.2.1 + tE
  let hd := setF acc.2.2.2 a (if eps < tE then tH / L else 0)
  (tH, tE, L, hd)

/-- One class of LHD::modelHitDensity: the reverse sweep from age
MAX_AGE-2 down to 0, carrying totalHits, totalEvents and the
unconditioned-lifetime accumulator, writing each density as it goes. -/
def modelHitDensityClass (p : Params) (cl : Class) : Class :=
  let tE0 := cl.hits (p.MAX_AGE - 1) + cl.evictions (p.MAX_AGE - 1)
  let tH0 := cl.hits (p.MAX_AGE - 1)
  let res := (List.range (p.MAX_AGE - 1)).reverse.foldl
    (sweepBody cl.hits cl.evictions) (tH0, tE0, tE0, cl.hitDensities)
  { cl with hitDensities := res.2.2.2 }

/-- LHD::modelHitDensity across the class table. -/
def modelHitDensity (p : Params) (s : State) : State :=
  { s with classes := fun c =>
      if c < p.NUM_CLASSES then modelHitDensityClass p (s.classes c) else s.classes c }

/-- The `while ((1 << k) < optimal) k += 1` loop of
LHD::adaptAgeCoarsening, by fuel.  The guard is antitone in `k` (2^k is
increasing), so with enough fuel the loop stops at the least admissible
`k`; `shiftFor` supplies fuel that provably suffices. -/
def shiftForAux (q : ℚ) : Nat → Nat → Nat
  | 0, k => k
  | fuel + 1, k => if 2 ^ k < q then shiftForAux q fuel (k + 1) else k

/-- The new coarsening shift the C++ loop computes: the least k ≥ 1 with
q ≤ 2^k (the loop starts from optimalAgeCoarseningLog2 = 1). -/
def shiftFor (q : ℚ) : Nat := shiftForAux q (q.num.toNat + 1) 1

/-- Stated from the spec's words, for comparison with `shiftFor`: the
smallest non-negative integer s with 2^s ≥ q, realised by the same
search loop started at 0 instead of 1. -/
def claimShift (q : ℚ) : Nat := shiftForAux q (q.num.toNat + 1) 0

/-- The `optimalAgeCoarsening` value computed at a reconfiguration, in
terms of the EWMA fields as updated at the start of
LHD::adaptAgeCoarsening. -/
def optimalOf (p : Params) (s : State) : ℚ :=
  ((s.ewmaNumObjects * p.EWMA_DECAY + (s.cacheNumObjects : ℚ)) /
      (s.ewmaNumObjectsMass * p.EWMA_DECAY + 1)) /
    (p.AGE_COARSENING_ERROR_TOLERANCE * (p.MAX_AGE : ℚ))

/-- The `tag.timestamp >>= delta` of LHD::adaptAgeCoarsening, where
delta is the C++ int `sNew - sOld`.  For delta ≥ 0 this is a plain right
shift by delta; a negative shift count is undefined behaviour in C++,
modelled here as no shift (no theorem below relies on that case). -/
def shrDelta (t sOld sNew : Nat) : Nat :=
  if sOld ≤ sNew then t >>> (sNew - sOld) else t

/-- The compress branch of LHD::adaptAgeCoarsening for one histogram
(delta > 0, d = delta): each surviving bin collects its block of 2^d old
bins, bins from MAX_AGE >> d up to MAX_AGE - 2 are zeroed, and the last
bin is left as is.  The folds mirror the in-place C++ loops. -/
def compressHist (M d : Nat) (h0 : Nat → ℚ) : Nat → ℚ :=
  let h1 := (List.range (M >>> d)).foldl
    (fun h a =>
      (List.range' 1 (2 ^ d - 1)).foldl
        (fun h i => setF h a (h a + h ((a <<< d) + i)))
        (setF h a (h (a <<< d))))
    h0
  (List.range' (M >>> d) ((M - 1) - (M >>> d))).foldl (fun h a => setF h a 0) h1

/-- The stretch branch of LHD::adaptAgeCoarsening for one histogram
(delta < 0, d = -delta): bins from MAX_AGE >> d up to MAX_AGE - 2 are
first folded into the last bin, then ages MAX_AGE - 2 down to 0 are
rewritten from position a >> d scaled by 2^d.  The folds mirror the
in-place C++ loops. -/
def stretchHist (M d : Nat) (h0 : Nat → ℚ) : Nat → ℚ :=
  let h1 := (List.range' (M >>> d) ((M - 1) - (M >>> d))).foldl
    (fun h a => setF h (M - 1) (h (M - 1) + h a)) h0
  (List.range (M - 1)).reverse.foldl
    (fun h a => setF h a (h (a >>> d) / (2 ^ d : ℚ))) h1

/-- LHD::adaptAgeCoarsening: decay-and-accumulate the object-count EWMAs;
only when numReconfigurations is 5 or 25, recompute the coarsening shift
with the while loop, weight the EWMAs by 8, compress or stretch every
class histogram according to the sign of delta, and shift every resident
tag's stored timestamp by delta. -/
def adaptAgeCoarsening (p : Params) (s : State) : State :=
  let ewmaN := s.ewmaNumObjects * p.EWMA_DECAY + (s.cacheNumObjects : ℚ)
  let ewmaM := s.ewmaNumObjectsMass * p.EWMA_DECAY + 1
  if s.numReconfigurations = 5 ∨ s.numReconfigurations = 25 then
    let sNew := shiftFor (optimalOf p s)
    let sOld := s.ageCoarseningShift
    -- The C++ computes the int32 delta = sNew - sOld and branches on its
    -- sign; both operands are small non-negative machine integers, so the
    -- sign test is the Nat comparison and |delta| the truncated difference.
    let classes :=
      if sNew < sOld then
        let d := sOld - sNew
        fun c => if c < p.NUM_CLASSES then
          { s.classes c with
            hits := stretchHist p.MAX_AGE d (s.classes c).hits,
            evictions := stretchHist p.MAX_AGE d (s.classes c).evictions }
          else s.classes c
      else if sOld < sNew then
        let d := sNew - sOld
        fun c => if c < p.NUM_CLASSES then
          { s.classes c with
            hits := compressHist p.MAX_AGE d (s.classes c).hits,
            evictions := compressHist p.MAX_AGE d (s.classes c).evictions }
          else s.classes c
      else s.classes
    let tags :=
      if sNew ≠ sOld then
        s.tags.map (fun t => { t with timestamp := shrDelta t.timestamp sOld sNew })
      else s.tags
    { s with ewmaNumObjects := ewmaN * 8, ewmaNumObjectsMass := ewmaM * 8,
             ageCoarseningShift := sNew, classes := classes, tags := tags }
  else
    { s with ewmaNumObjects := ewmaN, ewmaNumObjectsMass := ewmaM }

/-- LHD::reconfigure: decay histograms and refresh totals for every
class, adapt the age coarsening, rebuild the density model, and reset
the overflow counter.  The printf and dumpClassRanks diagnostics only
read state and are omitted. -/
def reconfigure (p : Params) (s : State) : State :=
  let s1 := { s with classes := fun c =>
      if c < p.NUM_CLASSES then updateClass p (s.classes c) else s.classes c }
  let s2 := adaptAgeCoarsening p s1
  let s3 := modelHitDensity p s2
  { s3 with overflows := 0 }

/-- The tail of LHD::update shared by both branches: write the coarsened
timestamp, app and size into the tag at `pos`, advance the RNG once,
advance the clock, and run the reconfiguration countdown. -/
def updateFinish (p : Params) (req : Request) (pos : Nat) (s : State) : State :=
  let t := s.tags.getD pos default
  let t' : Tag := { t with timestamp := s.timestamp >>> s.ageCoarseningShift,
                           app := req.appId % p.APP_CLASSES,
                           size := req.size }
  let s := { s with tags := s.tags.set pos t' }
  let s := { s with rng := (p.rngNext s.rng).2 }
  let s := { s with timestamp := s.timestamp + 1 }
  let n := s.nextReconfiguration - 1
  if n = 0 then
    let s := reconfigure p { s with nextReconfiguration := n }
    { s with nextReconfiguration := p.ACCS_PER_RECONFIGURATION,
             numReconfigurations := s.numReconfigurations + 1 }
  else
    { s with nextReconfiguration := n }

/-- LHD::update.  On a miss a fresh tag is appended and indexed; on a hit
the hit histogram is bumped at the tag's age and the tag's two hit-age
fields are rolled. -/
def update (p : Params) (id : Nat) (req : Request) (s : State) : State :=
  match idxFind s.indices id with
  | none =>
      let tag : Tag := { id := id, timestamp := 0, lastHitAge := 0,
                         lastLastHitAge := p.MAX_AGE, app := 0, size := 0 }
      let s1 := { s with tags := s.tags ++ [tag],
                         indices := idxSet s.indices id s.tags.length }
      updateFinish p req s.tags.length s1
  | some i =>
      let t := s.tags.getD i default
      let ao := getAge p s.ageCoarseningShift s.timestamp t
      let c := getClass p t
      let s1 := { s with
        classes := setClassF s.classes c
          (fun cl => { cl with hits := setF cl.hits ao.1 (cl.hits ao.1 + 1) }),
        overflows := s.overflows + (if ao.2 then 1 else 0),
        tags := s.tags.set i
          { t with lastLastHitAge := t.lastHitAge, lastHitAge := ao.1 } }
      updateFinish p req i s1

/-- LHD::replaced.  An absent id is the Unknown error (the C++ asserts
before touching anything); otherwise the eviction histogram is bumped at
the tag's age and the tag is removed by swap-with-last, fixing the moved
tag's index entry. -/
def replaced (p : Params) (id : Nat) (s : State) : Except Err State :=
  match idxFind s.indices id with
  | none => .error .Unknown
  | some i =>
      let t := s.tags.getD i default
      let ao := getAge p s.ageCoarseningShift s.timestamp t
      let c := getClass p t
      let classes := setClassF s.classes c
        (fun cl => { cl with evictions := setF cl.evictions ao.1 (cl.evictions ao.1 + 1) })
      let overflows := s.overflows + (if ao.2 then 1 else 0)
      let indices1 := idxErase s.indices id
      let last := s.tags.getD (s.tags.length - 1) default
      let tags1 := (s.tags.set i last).dropLast
      let indices2 :=
        if i < tags1.length then idxSet indices1 (tags1.getD i default).id i
        else indices1
      .ok { s with classes := classes, overflows := overflows,
                   indices := indices2, tags := tags1 }

/-- One candidate draw of LHD::rank: advance the RNG, index the tag
table at the drawn position modulo its size, and keep whichever of the
incumbent and the sampled tag has the smaller hit density (first seen
wins ties).  On an empty table the position lookup is vacuous and the
accumulator passes through. -/
def rankBody (p : Params) (acc : Option (Nat × ℚ) × State) : Option (Nat × ℚ) × State :=
  let st0 := acc.2
  let draw := p.rngNext st0.rng
  let st1 := { st0 with rng := draw.2 }
  let idx := draw.1 % st1.tags.length
  match st1.tags[idx]? with
  | none => (acc.1, st1)
  | some tag =>
    let dv := getHitDensity p st1 tag
    let st2 := { st1 with overflows := st1.overflows + (if dv.2 then 1 else 0) }
    match acc.1 with
    | none => (some (idx, dv.1), st2)
    | some v => if dv.1 < v.2 then (some (idx, dv.1), st2) else (some v, st2)

/-- LHD::rank.  Sample `candidates` positions (8 during warm-up,
ASSOCIATIVITY after 50 reconfigurations), advancing the RNG once per
draw, and return the id of the sampled tag of least hit density, first
seen winning ties.  On an empty tag table no candidate is ever examined
and the call fails with Empty (the C++ dies on its victim assert). -/
def rank (p : Params) (_req : Request) (s : State) : Except Err (Nat × State) :=
  let candidates := if 50 < s.numReconfigurations then p.ASSOCIATIVITY else 8
  let r := (List.range candidates).foldl (fun acc _ => rankBody p acc) (none, s)
  match r.1 with
  | some v => .ok ((r.2.tags.getD v.1 default).id, r.2)
  | none => .error .Empty

/-- The LHD::LHD constructor: empty tag table, zero histograms, the GDSF
prior (c+1)/(a+1) as the initial density model, countdown armed at
ACCS_PER_RECONFIGURATION, everything else zero; the RNG starts at the
given seed and the harness handle reports `n0` resident objects. -/
def init (p : Params) (seed n0 : Nat) : State where
  tags := []
  indices := []
  classes := fun c =>
    { hits := fun _ => 0, evictions := fun _ => 0,
      hitDensities := fun a =>
        if c < p.NUM_CLASSES ∧ a < p.MAX_AGE then ((c : ℚ) + 1) / ((a : ℚ) + 1) else 0,
      totalHits := 0, totalEvictions := 0 }
  timestamp := 0
  ageCoarseningShift := 0
  nextReconfiguration := p.ACCS_PER_RECONFIGURATION
  numReconfigurations := 0
  overflows := 0
  ewmaNumObjects := 0
  ewmaNumObjectsMass := 0
  rng := seed
  cacheNumObjects := n0

/-- The calls the harness can drive the ranker with. -/
inductive Op where
  | update (id : Nat) (req : Request)
  | replaced (id : Nat)
  | rank (req : Request)

/-- One harness call.  A failing call is synchronous and local and
leaves the state unchanged (spec section 7). -/
def step (p : Params) (s : State) : Op → State
  | .update id req => update p id req s
  | .replaced id =>
      match replaced p id s with
      | .ok s' => s'
      | .error _ => s
  | .rank req =>
      match rank p req s with
      | .ok v => v.2
      | .error _ => s

/-- The state after a sequence of harness calls on a fresh ranker. -/
def run (p : Params) (seed n0 : Nat) (ops : List Op) : State :=
  ops.foldl (step p) (init p seed n0)

/-- Histogram non-negativity: every hit and eviction bin of every class
is non-negative. -/
def HistNonneg (s : State) : Prop :=
  ∀ c k, 0 ≤ (s.classes c).hits k ∧ 0 ≤ (s.classes c).evictions k

/-- Density-bound property: once at least one reconfiguration has run,
every density the sweep writes (ages up to MAX_AGE - 2 of the real
classes) lies in the unit interval. -/
def DensOK (p : Params) (s : State) : Prop :=
  1 ≤ s.numReconfigurations → ∀ c, c < p.NUM_CLASSES → ∀ a, a + 1 < p.MAX_AGE →
    0 ≤ ((s.classes c).hitDensities a) ∧ ((s.classes c).hitDensities a) ≤ 1

/-- Last-bin property: the density at age MAX_AGE - 1 of every real
class still carries its constructor (GDSF prior) value. -/
def PriorOK (p : Params) (s : State) : Prop :=
  ∀ c, c < p.NUM_CLASSES →
    ((s.classes c).hitDensities (p.MAX_AGE - 1)) = ((c : ℚ) + 1) / (p.MAX_AGE : ℚ)

/-- The tag-table and index invariant of spec sections 4.1 and 8: keys
are unique, every entry points inside the tag sequence at a tag carrying
its id, every tag position is found under its tag's id, and the index
and the tag sequence have the same size. -/
def WFcore (tags : List Tag) (m : List (Nat × Nat)) : Prop :=
  (m.map Prod.fst).Nodup ∧
  (∀ q ∈ m, q.2 < tags.length ∧ (tags.getD q.2 default).id = q.1) ∧
  (∀ i, i < tags.length → idxFind m ((tags.getD i default).id) = some i) ∧
  m.length = tags.length

/-- The invariant read off a ranker state. -/
def WF (s : State) : Prop := WFcore s.tags s.indices

/-- A deterministic stand-in RNG stream for concrete runs (the spec
leaves the generator unspecified; no claim depends on the drawn values). -/
def rng0 : Nat → Nat × Nat := fun x => (x, x + 1)

/-- The constants of scenario S3: MAX_AGE 8, 16 classes,
ACCS_PER_RECONFIGURATION 1000000, and the spec's typical values for the
remaining knobs. -/
def P8 : Params :=
  { MAX_AGE := 8, APP_CLASSES := 4, HIT_AGE_CLASSES := 4,
    ACCS_PER_RECONFIGURATION := 1000000, EWMA_DECAY := 9/10,
    AGE_COARSENING_ERROR_TOLERANCE := 1/100, ASSOCIATIVITY := 64,
    rngNext := rng0 }

/-- A small configuration (MAX_AGE 4, one class, reconfigure every
update) for concrete reconfiguration scenarios. -/
def P4 : Params :=
  { MAX_AGE := 4, APP_CLASSES := 1, HIT_AGE_CLASSES := 1,
    ACCS_PER_RECONFIGURATION := 1, EWMA_DECAY := 9/10,
    AGE_COARSENING_ERROR_TOLERANCE := 1/100, ASSOCIATIVITY := 4,
    rngNext := rng0 }

/-- The small configuration with AGE_COARSENING_ERROR_TOLERANCE 1, so
that sixteen reported objects give optimal age coarsening 4 and a
recomputed shift of 2. -/
def PC : Params := { P4 with AGE_COARSENING_ERROR_TOLERANCE := 1 }

/-- A request with appId 0 and size 1. -/
def req1 : Request := { appId := 0, size := 1 }

/-- The all-zero class record. -/
def zeroClass : Class :=
  { hits := fun _ => 0, evictions := fun _ => 0, hitDensities := fun _ => 0,
    totalHits := 0, totalEvictions := 0 }

/-- A state sitting at its sixth reconfiguration (numReconfigurations 5)
with an idle harness (no resident objects reported), used to compare the
computed shift against the spec's smallest-non-negative reading. -/
def stateA : State :=
  { tags := [], indices := [], classes := fun _ => zeroClass,
    timestamp := 6, ageCoarseningShift := 0, nextReconfiguration := 0,
    numReconfigurations := 5, overflows := 0, ewmaNumObjects := 0,
    ewmaNumObjectsMass := 0, rng := 0, cacheNumObjects := 0 }

/-- A state at its sixth reconfiguration with one unit of histogram mass
at the last age bin of class 0 and eight reported resident objects (with
PC this makes optimal age coarsening 2 and the recomputed shift 1), used
to follow a rescaling reconfiguration concretely. -/
def stateB : State :=
  { tags := [{ id := 1, timestamp := 0, lastHitAge := 0, lastLastHitAge := 4,
               app := 0, size := 1 }],
    indices := [(1, 0)],
    classes := fun c =>
      if c = 0 then { zeroClass with hits := fun a => if a = 3 then 1 else 0 }
      else zeroClass,
    timestamp := 6, ageCoarseningShift := 0, nextReconfiguration := 0,
    numReconfigurations := 5, overflows := 0, ewmaNumObjects := 0,
    ewmaNumObjectsMass := 0, rng := 0, cacheNumObjects := 8 }

/-- A state at its sixth reconfiguration whose one resident tag carries
coarsened timestamp 4, with the harness reporting four resident objects
so that the recomputed shift is 2, used to watch the timestamp rescale. -/
def stateC : State :=
  { tags := [{ id := 7, timestamp := 4, lastHitAge := 0, lastLastHitAge := 4,
               app := 0, size := 1 }],
    indices := [(7, 0)],
    classes := fun _ => zeroClass,
    timestamp := 6, ageCoarseningShift := 0, nextReconfiguration := 0,
    numReconfigurations := 5, overflows := 0, ewmaNumObjects := 0,
    ewmaNumObjectsMass := 0, rng := 0, cacheNumObjects := 16 }

lemma tailSum_of_ge {f : Nat → ℚ} {M a : Nat} (h : M ≤ a) : tailSum f M a = 0 := by
  unfold tailSum
  rw [Nat.sub_eq_zero_of_le h]
  simp

lemma tailSum_eq {f : Nat → ℚ} {M a : Nat} (h : a < M) :
    tailSum f M a = f a + tailSum f M (a + 1) := by
  unfold tailSum
  have h1 : M - a = (M - (a + 1)) + 1 := by omega
  rw [h1, List.range'_succ]
  simp

lemma sweep_fold (h e g : Nat → ℚ) (M : Nat) :
    ∀ n, n ≤ M - 1 →
      (List.range n).reverse.foldl (sweepBody h e)
          (tailSum h M n, tailSum (fun k => h k + e k) M n,
            tailSum (fun k => tailSum (fun j => h j + e j) M k) M n, g) =
        (tailSum h M 0, tailSum (fun k => h k + e k) M 0,
          tailSum (fun k => tailSum (fun j => h j + e j) M k) M 0,
          fun a => if a < n then
            (if eps < tailSum (fun k => h k + e k) M a then
              tailSum h M a /
                tailSum (fun k => tailSum (fun j => h j + e j) M k) M a
            else 0)
          else g a) := by
  intro n
  induction n generalizing g with
  | zero =>
    intro _
    simp only [List.range_zero, List.reverse_nil, List.foldl_nil]
    refine congrArg _ (congrArg _ (congrArg _ ?_))
    funext a
    simp
  | succ n ih =>
    intro hn
    have hnM : n < M := by omega
    have hpeel : (List.range (n + 1)).reverse = n :: (List.range n).reverse := by
      rw [List.range_succ]; simp
    rw [hpeel, List.foldl_cons]
    have Hn := tailSum_eq (f := h) hnM
    have En := tailSum_eq (f := fun k => h k + e k) hnM
    have Ln := tailSum_eq (f := fun k => tailSum (fun j => h j + e j) M k) hnM
    simp only [] at En Ln
    have hstep : sweepBody h e
        (tailSum h M (n + 1), tailSum (fun k => h k + e k) M (n + 1),
          tailSum (fun k => tailSum (fun j => h j + e j) M k) M (n + 1), g) n =
        (tailSum h M n, tailSum (fun k => h k + e k) M n,
          tailSum (fun k => tailSum (fun j => h j + e j) M k) M n,
          setF g n (if eps < tailSum (fun k => h k + e k) M n then
              tailSum h M n /
                tailSum (fun k => tailSum (fun j => h j + e j) M k) M n
            else 0)) := by
      unfold sweepBody
      simp only []
      rw [Ln, En, Hn]
      refine Prod.ext ?_ (Prod.ext ?_ (Prod.ext ?_ ?_))
      · simp only []; ring
      · simp only []; ring
      · simp only []; ring
      · simp only []
        refine congrArg (setF g n) ?_
        have hc : tailSum (fun k => h k + e k) M (n + 1) + h n + e n =
            h n + e n + tailSum (fun k => h k + e k) M (n + 1) := by ring
        rw [hc]
        refine if_congr Iff.rfl ?_ rfl
        ring
    rw [hstep, ih _ (by omega)]
    refine congrArg _ (congrArg _ (congrArg _ ?_))
    funext a
    by_cases h1 : a < n
    · have h2 : a < n + 1 := by omega
      simp [h1, h2]
    · by_cases h2 : a = n
      · subst h2
        simp [setF]
      · have h3 : ¬ a < n + 1 := by omega
        simp [h1, h3, setF, h2]

lemma modelHitDensityClass_spec (p : Params) (cl : Class) :
    (modelHitDensityClass p cl).hitDensities = fun a =>
      if a < p.MAX_AGE - 1 then
        (if eps < tailSum (fun k => cl.hits k + cl.evictions k) p.MAX_AGE a then
          tailSum cl.hits p.MAX_AGE a /
            tailSum (fun k => tailSum (fun j => cl.hits j + cl.evictions j) p.MAX_AGE k)
              p.MAX_AGE a
        else 0)
      else cl.hitDensities a := by
  rcases Nat.eq_zero_or_pos p.MAX_AGE with hM | hM
  · unfold modelHitDensityClass
    rw [hM]
    simp
  · have h1 : cl.hits (p.MAX_AGE - 1) = tailSum cl.hits p.MAX_AGE (p.MAX_AGE - 1) := by
      rw [tailSum_eq (by omega), tailSum_of_ge (by omega)]
      ring
    have h2 : cl.hits (p.MAX_AGE - 1) + cl.evictions (p.MAX_AGE - 1) =
        tailSum (fun k => cl.hits k + cl.evictions k) p.MAX_AGE (p.MAX_AGE - 1) := by
      rw [tailSum_eq (by omega), tailSum_of_ge (by omega)]
      ring
    have h3 : cl.hits (p.MAX_AGE - 1) + cl.evictions (p.MAX_AGE - 1) =
        tailSum (fun k => tailSum (fun j => cl.hits j + cl.evictions j) p.MAX_AGE k)
          p.MAX_AGE (p.MAX_AGE - 1) := by
      have e3 := tailSum_eq
        (f := fun k => tailSum (fun j => cl.hits j + cl.evictions j) p.MAX_AGE k)
        (show p.MAX_AGE - 1 < p.MAX_AGE by omega)
      have e4 := tailSum_of_ge
        (f := fun k => tailSum (fun j => cl.hits j + cl.evictions j) p.MAX_AGE k)
        (show p.MAX_AGE ≤ p.MAX_AGE - 1 + 1 from by omega)
      rw [e3, e4]
      simp only []
      rw [← h2]
      ring
    have hfold := sweep_fold cl.hits cl.evictions cl.hitDensities p.MAX_AGE
      (p.MAX_AGE - 1) le_rfl
    rw [← h1, ← h2, ← h3] at hfold
    unfold modelHitDensityClass
    simp only []
    rw [hfold]

/-- C4: for every class and every histogram contents, the density model
rebuilt at reconfiguration satisfies the exact reverse-sweep recurrence:
with H the running hit sum from age a up, E the running hit-plus-eviction
sum from age a up and L accumulating E at each step of the sweep,
hitDensities a equals H / L when E exceeds 1e-5 and 0 otherwise, for
every age from MAX_AGE - 2 down to 0. -/
theorem modelHitDensity_recurrence (p : Params) (cl : Class) (a : Nat)
    (ha : a + 1 < p.MAX_AGE) :
    (modelHitDensityClass p cl).hitDensities a =
      if eps < tailSum (fun k => cl.hits k + cl.evictions k) p.MAX_AGE a then
        tailSum cl.hits p.MAX_AGE a /
          tailSum (fun k => tailSum (fun j => cl.hits j + cl.evictions j) p.MAX_AGE k)
            p.MAX_AGE a
      else 0 := by
  rw [modelHitDensityClass_spec]
  simp only []
  rw [if_pos (show a < p.MAX_AGE - 1 by omega)]

/-- Witness for C4 at age 0 of the MAX_AGE 4 configuration, on the
histogram of stateB. -/
theorem modelHitDensity_recurrence_at :
    (modelHitDensityClass P4 (stateB.classes 0)).hitDensities 0 =
      if eps < tailSum (fun k => (stateB.classes 0).hits k + (stateB.classes 0).evictions k)
          P4.MAX_AGE 0 then
        tailSum (stateB.classes 0).hits P4.MAX_AGE 0 /
          tailSum (fun k => tailSum
            (fun j => (stateB.classes 0).hits j + (stateB.classes 0).evictions j)
            P4.MAX_AGE k) P4.MAX_AGE 0
      else 0 :=
  modelHitDensity_recurrence P4 (stateB.classes 0) 0 (by norm_num [P4])

lemma foldl_induction {α β : Type} (P : α → Prop) (f : α → β → α) :
    ∀ (l : List β) (a : α), P a → (∀ x b, P x → P (f x b)) → P (l.foldl f a) := by
  intro l
  induction l with
  | nil => intro a h _; exact h
  | cons b t ih => intro a h hstep; exact ih (f a b) (hstep a b h) hstep

lemma eps_pos : (0 : ℚ) < eps := by norm_num [eps]

lemma tailSum_nonneg {f : Nat → ℚ} (hf : ∀ k, 0 ≤ f k) (M a : Nat) :
    0 ≤ tailSum f M a := by
  unfold tailSum
  refine List.sum_nonneg ?_
  intro x hx
  rcases List.mem_map.mp hx with ⟨k, _, rfl⟩
  exact hf k

lemma tailSum_mono {f g : Nat → ℚ} (hfg : ∀ k, f k ≤ g k) (M a : Nat) :
    tailSum f M a ≤ tailSum g M a := by
  unfold tailSum
  refine List.sum_le_sum ?_
  intro k _
  exact hfg k

lemma le_tailSum_self {f : Nat → ℚ} (hf : ∀ k, 0 ≤ f k) {M a : Nat} (ha : a < M) :
    f a ≤ tailSum f M a := by
  rw [tailSum_eq ha]
  have := tailSum_nonneg hf M (a + 1)
  linarith

lemma setF_nonneg {h : Nat → ℚ} (hh : ∀ k, 0 ≤ h k) {i : Nat} {v : ℚ} (hv : 0 ≤ v) :
    ∀ k, 0 ≤ setF h i v k := by
  intro k
  unfold setF
  split
  · exact hv
  · exact hh k

lemma compressHist_nonneg {M d : Nat} {h0 : Nat → ℚ} (hh : ∀ k, 0 ≤ h0 k) :
    ∀ k, 0 ≤ compressHist M d h0 k := by
  unfold compressHist
  refine foldl_induction (fun (h : Nat → ℚ) => ∀ k, 0 ≤ h k) _ _ _ ?_ ?_
  · refine foldl_induction (fun (h : Nat → ℚ) => ∀ k, 0 ≤ h k) _ _ _ hh ?_
    intro x a hx
    refine foldl_induction (fun (h : Nat → ℚ) => ∀ k, 0 ≤ h k) _ _ _ ?_ ?_
    · exact setF_nonneg hx (hx _)
    · intro y i hy
      exact setF_nonneg hy (add_nonneg (hy _) (hy _))
  · intro x a hx
    exact setF_nonneg hx le_rfl

lemma stretchHist_nonneg {M d : Nat} {h0 : Nat → ℚ} (hh : ∀ k, 0 ≤ h0 k) :
    ∀ k, 0 ≤ stretchHist M d h0 k := by
  unfold stretchHist
  refine foldl_induction (fun (h : Nat → ℚ) => ∀ k, 0 ≤ h k) _ _ _ ?_ ?_
  · refine foldl_induction (fun (h : Nat → ℚ) => ∀ k, 0 ≤ h k) _ _ _ hh ?_
    intro x a hx
    exact setF_nonneg hx (add_nonneg (hx _) (hx _))
  · intro x a hx
    exact setF_nonneg hx (div_nonneg (hx _) (by positivity))

lemma updateClass_hitDensities (p : Params) (cl : Class) :
    (updateClass p cl).hitDensities = cl.hitDensities := rfl

lemma updateClass_nonneg (p : Params) (hdk : 0 ≤ p.EWMA_DECAY) {cl : Class}
    (hh : ∀ k, 0 ≤ cl.hits k) (he : ∀ k, 0 ≤ cl.evictions k) :
    (∀ k, 0 ≤ (updateClass p cl).hits k) ∧ (∀ k, 0 ≤ (updateClass p cl).evictions k) := by
  constructor <;> intro k <;> unfold updateClass <;> simp only [] <;> split
  · exact mul_nonneg (hh k) hdk
  · exact hh k
  · exact mul_nonneg (he k) hdk
  · exact he k

lemma modelHitDensityClass_hits (p : Params) (cl : Class) :
    (modelHitDensityClass p cl).hits = cl.hits := rfl

lemma modelHitDensityClass_evictions (p : Params) (cl : Class) :
    (modelHitDensityClass p cl).evictions = cl.evictions := rfl

lemma modelHitDensityClass_mem_Icc (p : Params) (cl : Class)
    (hh : ∀ k, 0 ≤ cl.hits k) (he : ∀ k, 0 ≤ cl.evictions k)
    {a : Nat} (ha : a + 1 < p.MAX_AGE) :
    0 ≤ (modelHitDensityClass p cl).hitDensities a ∧
      (modelHitDensityClass p cl).hitDensities a ≤ 1 := by
  rw [modelHitDensityClass_spec]
  simp only []
  rw [if_pos (show a < p.MAX_AGE - 1 by omega)]
  by_cases hc : eps < tailSum (fun k => cl.hits k + cl.evictions k) p.MAX_AGE a
  · rw [if_pos hc]
    have hH0 : 0 ≤ tailSum cl.hits p.MAX_AGE a := tailSum_nonneg hh _ _
    have hHE : tailSum cl.hits p.MAX_AGE a ≤
        tailSum (fun k => cl.hits k + cl.evictions k) p.MAX_AGE a :=
      tailSum_mono (fun k => le_add_of_nonneg_right (he k)) _ _
    have hEnn : ∀ k, 0 ≤ tailSum (fun j => cl.hits j + cl.evictions j) p.MAX_AGE k :=
      fun k => tailSum_nonneg (fun j => add_nonneg (hh j) (he j)) _ _
    have hEL : tailSum (fun k => cl.hits k + cl.evictions k) p.MAX_AGE a ≤
        tailSum (fun k => tailSum (fun j => cl.hits j + cl.evictions j) p.MAX_AGE k)
          p.MAX_AGE a :=
      le_tailSum_self hEnn (show a < p.MAX_AGE by omega)
    have hL0 : 0 < tailSum (fun k => tailSum (fun j => cl.hits j + cl.evictions j)
        p.MAX_AGE k) p.MAX_AGE a := lt_of_lt_of_le (lt_trans eps_pos hc) hEL
    constructor
    · exact div_nonneg hH0 (le_of_lt hL0)
    · exact (div_le_one hL0).mpr (le_trans hHE hEL)
  · rw [if_neg hc]
    norm_num

lemma modelHitDensityClass_last (p : Params) (cl : Class) {a : Nat}
    (ha : p.MAX_AGE - 1 ≤ a) :
    (modelHitDensityClass p cl).hitDensities a = cl.hitDensities a := by
  rw [modelHitDensityClass_spec]
  simp only []
  rw [if_neg (by omega)]

lemma adapt_classes_hitDensities (p : Params) (s : State) (c : Nat) :
    ((adaptAgeCoarsening p s).classes c).hitDensities = (s.classes c).hitDensities := by
  by_cases h5 : s.numReconfigurations = 5 ∨ s.numReconfigurations = 25
  · by_cases hlt : shiftFor (optimalOf p s) < s.ageCoarseningShift
    · by_cases hc : c < p.NUM_CLASSES <;>
        simp [adaptAgeCoarsening, h5, hlt, hc]
    · by_cases hgt : s.ageCoarseningShift < shiftFor (optimalOf p s)
      · by_cases hc : c < p.NUM_CLASSES <;>
          simp [adaptAgeCoarsening, h5, hlt, hgt, hc]
      · simp [adaptAgeCoarsening, h5, hlt, hgt]
  · simp [adaptAgeCoarsening, h5]

lemma adapt_HistNonneg (p : Params) (s : State) (h : HistNonneg s) :
    HistNonneg (adaptAgeCoarsening p s) := by
  intro c k
  by_cases h5 : s.numReconfigurations = 5 ∨ s.numReconfigurations = 25
  · by_cases hlt : shiftFor (optimalOf p s) < s.ageCoarseningShift
    · by_cases hc : c < p.NUM_CLASSES
      · simp only [adaptAgeCoarsening, h5, hlt, hc, if_true, if_pos]
        exact ⟨stretchHist_nonneg (fun j => (h c j).1) k,
          stretchHist_nonneg (fun j => (h c j).2) k⟩
      · simp only [adaptAgeCoarsening, h5, hlt, hc, if_true, if_false, if_pos, if_neg,
          not_false_iff]
        exact h c k
    · by_cases hgt : s.ageCoarseningShift < shiftFor (optimalOf p s)
      · by_cases hc : c < p.NUM_CLASSES
        · simp only [adaptAgeCoarsening, h5, hlt, hgt, hc, if_true, if_false]
          exact ⟨compressHist_nonneg (fun j => (h c j).1) k,
            compressHist_nonneg (fun j => (h c j).2) k⟩
        · simp only [adaptAgeCoarsening, h5, hlt, hgt, hc, if_true, if_false]
          exact h c k
      · simp only [adaptAgeCoarsening, h5, hlt, hgt, if_true, if_false]
        exact h c k
  · simp only [adaptAgeCoarsening, h5, if_false]
    exact h c k

lemma adapt_numReconfigurations (p : Params) (s : State) :
    (adaptAgeCoarsening p s).numReconfigurations = s.numReconfigurations := by
  unfold adaptAgeCoarsening
  simp only []
  split <;> rfl

lemma reconfigure_HistNonneg (p : Params) (hdk : 0 ≤ p.EWMA_DECAY) (s : State)
    (h : HistNonneg s) : HistNonneg (reconfigure p s) := by
  unfold reconfigure
  simp only []
  have h1 : HistNonneg { s with classes := fun c =>
      if c < p.NUM_CLASSES then updateClass p (s.classes c) else s.classes c } := by
    intro c k
    simp only []
    split
    · exact ⟨(updateClass_nonneg p hdk (fun j => (h c j).1) (fun j => (h c j).2)).1 k,
        (updateClass_nonneg p hdk (fun j => (h c j).1) (fun j => (h c j).2)).2 k⟩
    · exact h c k
  have h2 := adapt_HistNonneg p _ h1
  intro c k
  simp only [modelHitDensity]
  split
  · rw [modelHitDensityClass_hits, modelHitDensityClass_evictions]
    exact h2 c k
  · exact h2 c k

lemma reconfigure_DensOK (p : Params) (hdk : 0 ≤ p.EWMA_DECAY) (s : State)
    (h : HistNonneg s) :
    ∀ c, c < p.NUM_CLASSES → ∀ a, a + 1 < p.MAX_AGE →
      0 ≤ ((reconfigure p s).classes c).hitDensities a ∧
        ((reconfigure p s).classes c).hitDensities a ≤ 1 := by
  intro c hc a ha
  have h1 : HistNonneg { s with classes := fun c =>
      if c < p.NUM_CLASSES then updateClass p (s.classes c) else s.classes c } := by
    intro c' k
    simp only []
    split
    · exact ⟨(updateClass_nonneg p hdk (fun j => (h c' j).1) (fun j => (h c' j).2)).1 k,
        (updateClass_nonneg p hdk (fun j => (h c' j).1) (fun j => (h c' j).2)).2 k⟩
    · exact h c' k
  have h2 := adapt_HistNonneg p _ h1
  show 0 ≤ ((modelHitDensity p _).classes c).hitDensities a ∧
      ((modelHitDensity p _).classes c).hitDensities a ≤ 1
  simp only [modelHitDensity]
  rw [if_pos hc]
  exact modelHitDensityClass_mem_Icc p _ (fun j => (h2 c j).1) (fun j => (h2 c j).2) ha

lemma reconfigure_hd_last (p : Params) (s : State) (c : Nat) :
    ((reconfigure p s).classes c).hitDensities (p.MAX_AGE - 1) =
      (s.classes c).hitDensities (p.MAX_AGE - 1) := by
  show ((modelHitDensity p _).classes c).hitDensities (p.MAX_AGE - 1) = _
  simp only [modelHitDensity]
  split
  · rw [modelHitDensityClass_last p _ le_rfl, adapt_classes_hitDensities]
    simp only []
    split <;> rfl
  · rw [adapt_classes_hitDensities]
    simp only []
    split <;> rfl

lemma rankBody_none (p : Params) (acc : Option (Nat × ℚ) × State)
    (h1 : acc.1 = none) (h2 : acc.2.tags = []) :
    (rankBody p acc).1 = none ∧ (rankBody p acc).2.tags = [] := by
  unfold rankBody
  simp [h2, h1]

lemma rankBody_fields (p : Params) (acc : Option (Nat × ℚ) × State) :
    (rankBody p acc).2.classes = acc.2.classes ∧
    (rankBody p acc).2.numReconfigurations = acc.2.numReconfigurations ∧
    (rankBody p acc).2.tags = acc.2.tags ∧
    (rankBody p acc).2.indices = acc.2.indices := by
  unfold rankBody
  simp only []
  split
  · exact ⟨rfl, rfl, rfl, rfl⟩
  · split
    · exact ⟨rfl, rfl, rfl, rfl⟩
    · split <;> exact ⟨rfl, rfl, rfl, rfl⟩

lemma rank_fold_fields (p : Params) (s : State) (l : List Nat) :
    ((l.foldl (fun acc _ => rankBody p acc) (none, s)).2.classes = s.classes ∧
      (l.foldl (fun acc _ => rankBody p acc) (none, s)).2.numReconfigurations =
        s.numReconfigurations ∧
      (l.foldl (fun acc _ => rankBody p acc) (none, s)).2.tags = s.tags ∧
      (l.foldl (fun acc _ => rankBody p acc) (none, s)).2.indices = s.indices) := by
  refine foldl_induction
    (fun (acc : Option (Nat × ℚ) × State) => acc.2.classes = s.classes ∧
      acc.2.numReconfigurations = s.numReconfigurations ∧
      acc.2.tags = s.tags ∧ acc.2.indices = s.indices) _ l (none, s)
    ⟨rfl, rfl, rfl, rfl⟩ ?_
  intro x b hx
  have hb := rankBody_fields p x
  exact ⟨hb.1.trans hx.1, hb.2.1.trans hx.2.1, hb.2.2.1.trans hx.2.2.1,
    hb.2.2.2.trans hx.2.2.2⟩

lemma step_rank_fields (p : Params) (s : State) (req : Request) :
    (step p s (.rank req)).classes = s.classes ∧
    (step p s (.rank req)).numReconfigurations = s.numReconfigurations ∧
    (step p s (.rank req)).tags = s.tags ∧
    (step p s (.rank req)).indices = s.indices := by
  unfold step rank
  simp only []
  split
  · next v heq =>
    have hf := rank_fold_fields p s
      (List.range (if 50 < s.numReconfigurations then p.ASSOCIATIVITY else 8))
    split at heq
    · next v0 heq0 =>
      cases heq
      exact hf
    · exact absurd heq (by simp)
  · exact ⟨rfl, rfl, rfl, rfl⟩

lemma updateFinish_inv8 (p : Params) (hdk : 0 ≤ p.EWMA_DECAY) (req : Request)
    (pos : Nat) (s : State) (h1 : HistNonneg s) (h2 : DensOK p s) :
    HistNonneg (updateFinish p req pos s) ∧ DensOK p (updateFinish p req pos s) := by
  unfold updateFinish
  simp only []
  split
  · constructor
    · intro c k
      refine (reconfigure_HistNonneg p hdk _ ?_) c k
      exact fun c' k' => h1 c' k'
    · intro _ c hc a ha
      refine reconfigure_DensOK p hdk _ ?_ c hc a ha
      exact fun c' k' => h1 c' k'
  · constructor
    · exact fun c k => h1 c k
    · intro hn c hc a ha
      exact h2 hn c hc a ha

lemma update_inv8 (p : Params) (hdk : 0 ≤ p.EWMA_DECAY) (id : Nat) (req : Request)
    (s : State) (h1 : HistNonneg s) (h2 : DensOK p s) :
    HistNonneg (update p id req s) ∧ DensOK p (update p id req s) := by
  unfold update
  cases hfind : idxFind s.indices id with
  | none =>
    simp only []
    exact updateFinish_inv8 p hdk req _ _ (fun c k => h1 c k)
      (fun hn c hc a ha => h2 hn c hc a ha)
  | some i =>
    simp only []
    refine updateFinish_inv8 p hdk req _ _ ?_ ?_
    · intro c k
      show 0 ≤ (setClassF s.classes _ _ c).hits k ∧
        0 ≤ (setClassF s.classes _ _ c).evictions k
      unfold setClassF
      split
      · refine ⟨?_, (h1 c k).2⟩
        show 0 ≤ setF (s.classes c).hits _ _ k
        unfold setF
        split
        · exact add_nonneg (h1 c _).1 zero_le_one
        · exact (h1 c k).1
      · exact h1 c k
    · intro hn c hc a ha
      show 0 ≤ (setClassF s.classes _ _ c).hitDensities a ∧
        (setClassF s.classes _ _ c).hitDensities a ≤ 1
      unfold setClassF
      split
      · exact h2 hn c hc a ha
      · exact h2 hn c hc a ha

lemma replaced_inv8 (p : Params) (id : Nat) (s : State) (s' : State)
    (h : replaced p id s = .ok s') (h1 : HistNonneg s) (h2 : DensOK p s) :
    HistNonneg s' ∧ DensOK p s' := by
  unfold replaced at h
  cases hfind : idxFind s.indices id with
  | none => rw [hfind] at h; cases h
  | some i =>
    rw [hfind] at h
    simp only [] at h
    cases h
    constructor
    · intro c k
      show 0 ≤ (setClassF s.classes _ _ c).hits k ∧
        0 ≤ (setClassF s.classes _ _ c).evictions k
      unfold setClassF
      split
      · refine ⟨(h1 c k).1, ?_⟩
        show 0 ≤ setF (s.classes c).evictions _ _ k
        unfold setF
        split
        · exact add_nonneg (h1 c _).2 zero_le_one
        · exact (h1 c k).2
      · exact h1 c k
    · intro hn c hc a ha
      show 0 ≤ (setClassF s.classes _ _ c).hitDensities a ∧
        (setClassF s.classes _ _ c).hitDensities a ≤ 1
      unfold setClassF
      split
      · exact h2 hn c hc a ha
      · exact h2 hn c hc a ha

lemma step_inv8 (p : Params) (hdk : 0 ≤ p.EWMA_DECAY) (s : State) (op : Op)
    (h : HistNonneg s ∧ DensOK p s) :
    HistNonneg (step p s op) ∧ DensOK p (step p s op) := by
  cases op with
  | update id req => exact update_inv8 p hdk id req s h.1 h.2
  | replaced id =>
    unfold step
    simp only []
    cases hrep : replaced p id s with
    | ok s' =>
      simp only [hrep]
      exact replaced_inv8 p id s s' hrep h.1 h.2
    | error e =>
      simp only [hrep]
      exact h
  | rank req =>
    have hf := step_rank_fields p s req
    constructor
    · intro c k
      rw [hf.1]
      exact h.1 c k
    · intro hn c hc a ha
      rw [hf.1]
      rw [hf.2.1] at hn
      exact h.2 hn c hc a ha

lemma shiftForAux_ge (q : ℚ) : ∀ fuel k, k ≤ shiftForAux q fuel k := by
  intro fuel
  induction fuel with
  | zero => intro k; exact le_rfl
  | succ fuel ih =>
    intro k
    unfold shiftForAux
    split
    · exact le_trans (Nat.le_succ k) (ih (k + 1))
    · exact le_rfl

lemma shiftForAux_correct (q : ℚ) : ∀ fuel k, q ≤ 2 ^ (k + fuel) →
    q ≤ 2 ^ shiftForAux q fuel k ∧
      ∀ j, k ≤ j → q ≤ 2 ^ j → shiftForAux q fuel k ≤ j := by
  intro fuel
  induction fuel with
  | zero =>
    intro k hk
    refine ⟨by simpa using hk, ?_⟩
    intro j hj _
    simpa [shiftForAux] using hj
  | succ fuel ih =>
    intro k hk
    unfold shiftForAux
    split
    · next hlt =>
      have hk' : q ≤ 2 ^ (k + 1 + fuel) := by
        rw [show k + 1 + fuel = k + (fuel + 1) by omega]
        exact hk
      refine ⟨(ih (k + 1) hk').1, ?_⟩
      intro j hj hqj
      have hjk : j ≠ k := by
        intro heq
        rw [heq] at hqj
        exact absurd (lt_of_lt_of_le hlt hqj) (lt_irrefl _)
      exact (ih (k + 1) hk').2 j (by omega) hqj
    · next hge =>
      refine ⟨not_lt.mp hge, ?_⟩
      intro j hj _
      exact hj

lemma rat_le_two_pow_num (q : ℚ) : q ≤ 2 ^ (q.num.toNat + 1) := by
  rcases le_or_lt q 0 with h | h
  · exact le_trans h (by positivity)
  · have hnum : (0 : Int) < q.num := Rat.num_pos.mpr h
    have h1 : q ≤ (q.num : ℚ) := by
      conv_lhs => rw [← Rat.num_div_den q]
      refine div_le_self (by exact_mod_cast le_of_lt hnum) ?_
      exact_mod_cast Nat.one_le_iff_ne_zero.mpr (Nat.pos_iff_ne_zero.mp q.pos)
    have h2 : (q.num : ℚ) = ((q.num.toNat : Nat) : ℚ) := by
      have := Int.toNat_of_nonneg (le_of_lt hnum)
      exact_mod_cast (congrArg (fun z : Int => (z : ℚ)) this).symm
    have h3 : (q.num.toNat : ℚ) ≤ 2 ^ q.num.toNat := by
      have := Nat.lt_two_pow q.num.toNat
      exact_mod_cast le_of_lt this
    have h4 : (2 : ℚ) ^ q.num.toNat ≤ 2 ^ (q.num.toNat + 1) := by
      refine pow_le_pow_right₀ (by norm_num) (Nat.le_succ _)
    calc q ≤ (q.num : ℚ) := h1
      _ = _ := h2
      _ ≤ 2 ^ q.num.toNat := h3
      _ ≤ 2 ^ (q.num.toNat + 1) := h4

lemma shiftFor_spec (q : ℚ) :
    1 ≤ shiftFor q ∧ q ≤ 2 ^ shiftFor q ∧
      ∀ j, 1 ≤ j → q ≤ 2 ^ j → shiftFor q ≤ j := by
  have hfuel : q ≤ 2 ^ (1 + (q.num.toNat + 1)) := by
    refine le_trans (rat_le_two_pow_num q) ?_
    exact pow_le_pow_right₀ (by norm_num) (by omega)
  exact ⟨shiftForAux_ge q _ 1, (shiftForAux_correct q _ 1 hfuel).1,
    (shiftForAux_correct q _ 1 hfuel).2⟩

lemma claimShift_spec (q : ℚ) :
    q ≤ 2 ^ claimShift q ∧ ∀ j, q ≤ 2 ^ j → claimShift q ≤ j := by
  have hfuel : q ≤ 2 ^ (0 + (q.num.toNat + 1)) := by
    simpa using rat_le_two_pow_num q
  exact ⟨(shiftForAux_correct q _ 0 hfuel).1,
    fun j hj => (shiftForAux_correct q _ 0 hfuel).2 j (Nat.zero_le j) hj⟩

lemma getD_set_self {α : Type} [Inhabited α] {l : List α} {i : Nat} {x : α}
    (h : i < l.length) : (l.set i x).getD i default = x := by
  rw [List.getD_eq_getElem?_getD, List.getElem?_set_eq_of_lt _ (by simpa using h)]
  rfl

lemma idxFind_nil (k : Nat) : idxFind [] k = none := rfl

lemma idxFind_cons (q : Nat × Nat) (t : List (Nat × Nat)) (k : Nat) :
    idxFind (q :: t) k = if q.1 = k then some q.2 else idxFind t k := rfl

lemma idxSetVal_cons (q : Nat × Nat) (t : List (Nat × Nat)) (k v : Nat) :
    idxSetVal (q :: t) k v =
      if q.1 = k then (k, v) :: idxSetVal t k v else q :: idxSetVal t k v := rfl

lemma idxErase_cons (q : Nat × Nat) (t : List (Nat × Nat)) (k : Nat) :
    idxErase (q :: t) k = if q.1 = k then idxErase t k else q :: idxErase t k := rfl

lemma idxFind_eq_none_iff {m : List (Nat × Nat)} {k : Nat} :
    idxFind m k = none ↔ ∀ q ∈ m, q.1 ≠ k := by
  induction m with
  | nil => simp [idxFind_nil]
  | cons q t ih =>
    rw [idxFind_cons]
    by_cases hq : q.1 = k
    · simp [hq]
    · simp [hq, ih]

lemma idxFind_mem {m : List (Nat × Nat)} {k v : Nat} (h : idxFind m k = some v) :
    (k, v) ∈ m := by
  induction m with
  | nil => cases h
  | cons q t ih =>
    rw [idxFind_cons] at h
    by_cases hq : q.1 = k
    · rw [if_pos hq] at h
      cases h
      refine List.mem_cons.mpr (Or.inl ?_)
      cases q
      cases hq
      rfl
    · rw [if_neg hq] at h
      exact List.mem_cons_of_mem q (ih h)

lemma idxFind_isSome_of_mem {m : List (Nat × Nat)} {q : Nat × Nat} (h : q ∈ m) :
    (idxFind m q.1).isSome := by
  induction m with
  | nil => cases h
  | cons r t ih =>
    rw [idxFind_cons]
    by_cases hr : r.1 = q.1
    · simp [hr]
    · rw [if_neg hr]
      rcases List.mem_cons.mp h with h1 | h1
      · exact absurd (congrArg Prod.fst h1).symm hr
      · exact ih h1

lemma idxSetVal_keys (m : List (Nat × Nat)) (k v : Nat) :
    (idxSetVal m k v).map Prod.fst = m.map Prod.fst := by
  induction m with
  | nil => rfl
  | cons q t ih =>
    rw [idxSetVal_cons]
    by_cases hq : q.1 = k
    · simp [hq, ih]
    · simp [hq, ih]

lemma idxSetVal_length (m : List (Nat × Nat)) (k v : Nat) :
    (idxSetVal m k v).length = m.length := by
  have := congrArg List.length (idxSetVal_keys m k v)
  simpa using this

lemma idxFind_idxSetVal_self {m : List (Nat × Nat)} {k : Nat} (v : Nat)
    (h : (idxFind m k).isSome) : idxFind (idxSetVal m k v) k = some v := by
  induction m with
  | nil => simp [idxFind_nil] at h
  | cons q t ih =>
    rw [idxSetVal_cons]
    by_cases hq : q.1 = k
    · rw [if_pos hq, idxFind_cons, if_pos rfl]
    · rw [if_neg hq, idxFind_cons, if_neg hq]
      refine ih ?_
      rw [idxFind_cons, if_neg hq] at h
      exact h

lemma idxFind_idxSetVal_ne {m : List (Nat × Nat)} {k k' : Nat} (v : Nat)
    (hne : k' ≠ k) : idxFind (idxSetVal m k v) k' = idxFind m k' := by
  induction m with
  | nil => rfl
  | cons q t ih =>
    rw [idxSetVal_cons]
    by_cases hq : q.1 = k
    · rw [if_pos hq, idxFind_cons, idxFind_cons,
        if_neg (show ¬ (k, v).1 = k' from fun h => hne h.symm),
        if_neg (show ¬ q.1 = k' from by rw [hq]; exact fun h => hne h.symm)]
      exact ih
    · rw [if_neg hq, idxFind_cons, idxFind_cons]
      by_cases hq' : q.1 = k'
      · rw [if_pos hq', if_pos hq']
      · rw [if_neg hq', if_neg hq']
        exact ih

lemma idxSetVal_mem {m : List (Nat × Nat)} {k v : Nat} {q : Nat × Nat}
    (h : q ∈ idxSetVal m k v) : q = (k, v) ∨ (q ∈ m ∧ q.1 ≠ k) := by
  induction m with
  | nil => cases h
  | cons r t ih =>
    rw [idxSetVal_cons] at h
    by_cases hr : r.1 = k
    · rw [if_pos hr] at h
      rcases List.mem_cons.mp h with h1 | h1
      · exact Or.inl h1
      · rcases ih h1 with h2 | h2
        · exact Or.inl h2
        · exact Or.inr ⟨List.mem_cons_of_mem r h2.1, h2.2⟩
    · rw [if_neg hr] at h
      rcases List.mem_cons.mp h with h1 | h1
      · subst h1
        exact Or.inr ⟨List.mem_cons_self q t, hr⟩
      · rcases ih h1 with h2 | h2
        · exact Or.inl h2
        · exact Or.inr ⟨List.mem_cons_of_mem r h2.1, h2.2⟩

lemma idxFind_append_some {m m' : List (Nat × Nat)} {k w : Nat}
    (h : idxFind m k = some w) : idxFind (m ++ m') k = some w := by
  induction m with
  | nil => cases h
  | cons q t ih =>
    rw [idxFind_cons] at h
    rw [List.cons_append, idxFind_cons]
    by_cases hq : q.1 = k
    · rw [if_pos hq] at h
      rw [if_pos hq]
      exact h
    · rw [if_neg hq] at h
      rw [if_neg hq]
      exact ih h

lemma idxFind_append_none {m m' : List (Nat × Nat)} {k : Nat}
    (h : idxFind m k = none) : idxFind (m ++ m') k = idxFind m' k := by
  induction m with
  | nil => rfl
  | cons q t ih =>
    rw [idxFind_cons] at h
    rw [List.cons_append, idxFind_cons]
    by_cases hq : q.1 = k
    · rw [if_pos hq] at h
      cases h
    · rw [if_neg hq] at h
      rw [if_neg hq]
      exact ih h

lemma idxErase_keys_sublist (m : List (Nat × Nat)) (k : Nat) :
    ((idxErase m k).map Prod.fst).Sublist (m.map Prod.fst) := by
  induction m with
  | nil => exact List.Sublist.refl _
  | cons q t ih =>
    rw [idxErase_cons]
    by_cases hq : q.1 = k
    · rw [if_pos hq]
      exact List.Sublist.cons _ ih
    · rw [if_neg hq]
      simp only [List.map_cons]
      exact List.Sublist.cons₂ q.1 ih

lemma idxFind_idxErase_self (m : List (Nat × Nat)) (k : Nat) :
    idxFind (idxErase m k) k = none := by
  induction m with
  | nil => rfl
  | cons q t ih =>
    rw [idxErase_cons]
    by_cases hq : q.1 = k
    · rw [if_pos hq]
      exact ih
    · rw [if_neg hq, idxFind_cons, if_neg hq]
      exact ih

lemma idxFind_idxErase_ne {m : List (Nat × Nat)} {k k' : Nat} (hne : k' ≠ k) :
    idxFind (idxErase m k) k' = idxFind m k' := by
  induction m with
  | nil => rfl
  | cons q t ih =>
    rw [idxErase_cons]
    by_cases hq : q.1 = k
    · rw [if_pos hq, idxFind_cons,
        if_neg (show ¬ q.1 = k' from by rw [hq]; exact fun h => hne h.symm)]
      exact ih
    · rw [if_neg hq, idxFind_cons, idxFind_cons]
      by_cases hq' : q.1 = k'
      · rw [if_pos hq', if_pos hq']
      · rw [if_neg hq', if_neg hq']
        exact ih

lemma idxErase_mem {m : List (Nat × Nat)} {k : Nat} {q : Nat × Nat}
    (h : q ∈ idxErase m k) : q ∈ m ∧ q.1 ≠ k := by
  induction m with
  | nil => cases h
  | cons r t ih =>
    rw [idxErase_cons] at h
    by_cases hr : r.1 = k
    · rw [if_pos hr] at h
      exact ⟨List.mem_cons_of_mem r (ih h).1, (ih h).2⟩
    · rw [if_neg hr] at h
      rcases List.mem_cons.mp h with h1 | h1
      · subst h1
        exact ⟨List.mem_cons_self q t, hr⟩
      · exact ⟨List.mem_cons_of_mem r (ih h1).1, (ih h1).2⟩

lemma idxErase_length {m : List (Nat × Nat)} {k : Nat}
    (hnd : (m.map Prod.fst).Nodup) (hk : (idxFind m k).isSome) :
    (idxErase m k).length + 1 = m.length := by
  induction m with
  | nil => simp [idxFind_nil] at hk
  | cons q t ih =>
    have hnd' : (t.map Prod.fst).Nodup := (List.nodup_cons.mp hnd).2
    rw [idxErase_cons]
    by_cases hq : q.1 = k
    · rw [if_pos hq]
      have hknotin : ∀ r ∈ t, r.1 ≠ k := by
        intro r hr hrk
        have : q.1 ∈ t.map Prod.fst := by
          rw [hq, ← hrk]
          exact List.mem_map_of_mem Prod.fst hr
        exact (List.nodup_cons.mp hnd).1 this
      have herase : idxErase t k = t := by
        clear ih hk hnd hnd'
        induction t with
        | nil => rfl
        | cons r u ihu =>
          rw [idxErase_cons, if_neg (hknotin r (List.mem_cons_self r u))]
          rw [ihu (fun x hx => hknotin x (List.mem_cons_of_mem r hx))]
      rw [herase]
      simp
    · rw [if_neg hq]
      rw [idxFind_cons, if_neg hq] at hk
      have := ih hnd' hk
      simp only [List.length_cons]
      omega

lemma getD_set_ne {α : Type} [Inhabited α] {l : List α} {i j : Nat} {x : α}
    (h : i ≠ j) : (l.set i x).getD j default = l.getD j default := by
  rw [List.getD_eq_getElem?_getD, List.getD_eq_getElem?_getD, List.getElem?_set_ne h]

lemma getD_map {l : List Tag} {f : Tag → Tag} {j : Nat} (h : j < l.length) :
    (l.map f).getD j default = f (l.getD j default) := by
  rw [List.getD_eq_getElem?_getD, List.getD_eq_getElem?_getD, List.getElem?_map,
    List.getElem?_eq_getElem h]
  rfl

lemma getD_append_lt {α : Type} [Inhabited α] {l l' : List α} {j : Nat}
    (h : j < l.length) : (l ++ l').getD j default = l.getD j default := by
  rw [List.getD_eq_getElem?_getD, List.getD_eq_getElem?_getD, List.getElem?_append,
    if_pos h]

lemma getD_append_len {α : Type} [Inhabited α] {l : List α} {x : α} :
    (l ++ [x]).getD l.length default = x := by
  rw [List.getD_eq_getElem?_getD, List.getElem?_concat_length]
  rfl

lemma getD_dropLast {α : Type} [Inhabited α] {l : List α} {j : Nat}
    (h : j < l.length - 1) : l.dropLast.getD j default = l.getD j default := by
  rw [List.getD_eq_getElem?_getD, List.getD_eq_getElem?_getD, List.dropLast_eq_take,
    List.getElem?_take, if_pos h]

lemma WFcore_set_same_id {tags : List Tag} {m : List (Nat × Nat)} (h : WFcore tags m)
    {i : Nat} (hi : i < tags.length) {t' : Tag}
    (hid : t'.id = (tags.getD i default).id) : WFcore (tags.set i t') m := by
  obtain ⟨hnd, hfwd, hrev, hlen⟩ := h
  refine ⟨hnd, ?_, ?_, ?_⟩
  · intro q hq
    obtain ⟨hq1, hq2⟩ := hfwd q hq
    refine ⟨by simpa using hq1, ?_⟩
    by_cases hji : q.2 = i
    · rw [hji, getD_set_self hi, hid]
      rw [← hji, hq2]
    · rw [getD_set_ne (fun h => hji h.symm)]
      exact hq2
  · intro j hj
    have hj' : j < tags.length := by simpa using hj
    by_cases hji : j = i
    · subst hji
      rw [getD_set_self hi, hid]
      exact hrev j hj'
    · rw [getD_set_ne (fun h => hji h.symm)]
      exact hrev j hj'
  · simpa using hlen

lemma WFcore_map_id {tags : List Tag} {m : List (Nat × Nat)} (h : WFcore tags m)
    {f : Tag → Tag} (hf : ∀ t, (f t).id = t.id) : WFcore (tags.map f) m := by
  obtain ⟨hnd, hfwd, hrev, hlen⟩ := h
  refine ⟨hnd, ?_, ?_, ?_⟩
  · intro q hq
    obtain ⟨hq1, hq2⟩ := hfwd q hq
    refine ⟨by simpa using hq1, ?_⟩
    rw [getD_map hq1, hf]
    exact hq2
  · intro j hj
    have hj' : j < tags.length := by simpa using hj
    rw [getD_map hj', hf]
    exact hrev j hj'
  · simpa using hlen

lemma WFcore_insert {tags : List Tag} {m : List (Nat × Nat)} (h : WFcore tags m)
    {id : Nat} (hfind : idxFind m id = none) {t0 : Tag} (hid : t0.id = id) :
    WFcore (tags ++ [t0]) (m ++ [(id, tags.length)]) := by
  obtain ⟨hnd, hfwd, hrev, hlen⟩ := h
  have hnotin : id ∉ m.map Prod.fst := by
    intro hmem
    rcases List.mem_map.mp hmem with ⟨q, hq, hq1⟩
    exact (idxFind_eq_none_iff.mp hfind q hq) hq1
  refine ⟨?_, ?_, ?_, ?_⟩
  · rw [List.map_append]
    refine List.Nodup.append hnd (List.nodup_singleton id) ?_
    intro a ha hb
    rw [List.map_singleton, List.mem_singleton] at hb
    subst hb
    exact hnotin ha
  · intro q hq
    rcases List.mem_append.mp hq with h1 | h1
    · obtain ⟨hq1, hq2⟩ := hfwd q h1
      refine ⟨by simp only [List.length_append, List.length_singleton]; omega, ?_⟩
      rw [getD_append_lt hq1]
      exact hq2
    · rw [List.mem_singleton] at h1
      subst h1
      refine ⟨by simp, ?_⟩
      rw [getD_append_len]
      exact hid
  · intro j hj
    rw [List.length_append, List.length_singleton] at hj
    by_cases hjl : j < tags.length
    · rw [getD_append_lt hjl]
      exact idxFind_append_some (hrev j hjl)
    · have hj' : j = tags.length := by omega
      subst hj'
      rw [getD_append_len, hid, idxFind_append_none hfind, idxFind_cons, if_pos rfl]
  · rw [List.length_append, List.length_append]
    simpa using hlen

lemma WFcore_ids_inj {tags : List Tag} {m : List (Nat × Nat)} (h : WFcore tags m)
    {j k : Nat} (hj : j < tags.length) (hk : k < tags.length)
    (he : (tags.getD j default).id = (tags.getD k default).id) : j = k := by
  have h1 := h.2.2.1 j hj
  have h2 := h.2.2.1 k hk
  rw [he, h2] at h1
  exact (Option.some.inj h1).symm

lemma WFcore_remove {tags : List Tag} {m : List (Nat × Nat)} (h : WFcore tags m)
    {id i : Nat} (hfind : idxFind m id = some i) :
    WFcore ((tags.set i (tags.getD (tags.length - 1) default)).dropLast)
      (if i < ((tags.set i (tags.getD (tags.length - 1) default)).dropLast).length then
        idxSet (idxErase m id)
          ((((tags.set i (tags.getD (tags.length - 1) default)).dropLast).getD i
            default).id) i
      else idxErase m id) := by
  obtain ⟨hnd, hfwd, hrev, hlen⟩ := h
  have hqmem : (id, i) ∈ m := idxFind_mem hfind
  have hi : i < tags.length := (hfwd _ hqmem).1
  have hidf : (tags.getD i default).id = id := (hfwd _ hqmem).2
  have hn1 : tags.length - 1 < tags.length := by omega
  have hlast := hrev (tags.length - 1) hn1
  have f1 : ((tags.set i (tags.getD (tags.length - 1) default)).dropLast).length =
      tags.length - 1 := by simp
  have f2 : ∀ j, j < tags.length - 1 →
      ((tags.set i (tags.getD (tags.length - 1) default)).dropLast).getD j default =
        if j = i then tags.getD (tags.length - 1) default else tags.getD j default := by
    intro j hj
    rw [getD_dropLast (by simpa using hj)]
    by_cases hji : j = i
    · rw [if_pos hji, hji, getD_set_self hi]
    · rw [if_neg hji, getD_set_ne (fun h => hji h.symm)]
  have f5 : ((idxErase m id).map Prod.fst).Nodup :=
    List.Nodup.sublist (idxErase_keys_sublist m id) hnd
  have f6 : (idxErase m id).length + 1 = m.length :=
    idxErase_length hnd (by rw [hfind]; rfl)
  rw [f1]
  by_cases hib : i < tags.length - 1
  · rw [if_pos hib]
    have hmoved : ((tags.set i (tags.getD (tags.length - 1) default)).dropLast).getD i
        default = tags.getD (tags.length - 1) default := by
      rw [f2 i hib, if_pos rfl]
    rw [hmoved]
    have hlidne : (tags.getD (tags.length - 1) default).id ≠ id := by
      intro he
      have := WFcore_ids_inj ⟨hnd, hfwd, hrev, hlen⟩ hn1 hi (by rw [hidf, he])
      omega
    have hfind1 : idxFind (idxErase m id) ((tags.getD (tags.length - 1) default).id) =
        some (tags.length - 1) := by
      rw [idxFind_idxErase_ne hlidne]
      exact hlast
    unfold idxSet
    rw [if_pos (by rw [hfind1]; rfl)]
    refine ⟨?_, ?_, ?_, ?_⟩
    · rw [idxSetVal_keys]
      exact f5
    · intro q hq
      rcases idxSetVal_mem hq with h1 | h1
      · subst h1
        refine ⟨by rw [f1]; exact hib, ?_⟩
        rw [f2 i hib, if_pos rfl]
      · obtain ⟨h2, h3⟩ := h1
        obtain ⟨h4, h5⟩ := idxErase_mem h2
        obtain ⟨h6, h7⟩ := hfwd q h4
        have hq2ne : q.2 ≠ tags.length - 1 := by
          intro he
          rw [he] at h7
          exact h3 h7.symm
        have hq2ni : q.2 ≠ i := by
          intro he
          rw [he, hidf] at h7
          exact h5 h7.symm
        refine ⟨by rw [f1]; omega, ?_⟩
        rw [f2 q.2 (by omega), if_neg hq2ni]
        exact h7
    · intro j hj
      rw [f1] at hj
      by_cases hji : j = i
      · subst hji
        rw [f2 j hj, if_pos rfl]
        rw [idxFind_idxSetVal_self _ (by rw [hfind1]; rfl)]
      · rw [f2 j hj, if_neg hji]
        have hidj : (tags.getD j default).id ≠ id := by
          intro he
          have := WFcore_ids_inj (j := j) (k := i) ⟨hnd, hfwd, hrev, hlen⟩
            (by omega) hi (by rw [hidf, he])
          exact hji this
        have hidlast : (tags.getD j default).id ≠
            (tags.getD (tags.length - 1) default).id := by
          intro he
          have := WFcore_ids_inj (j := j) (k := tags.length - 1)
            ⟨hnd, hfwd, hrev, hlen⟩ (by omega) hn1 he
          omega
        rw [idxFind_idxSetVal_ne _ hidlast, idxFind_idxErase_ne hidj]
        exact hrev j (by omega)
    · rw [idxSetVal_length, f1]
      omega
  · rw [if_neg hib]
    have hieq : i = tags.length - 1 := by omega
    refine ⟨f5, ?_, ?_, ?_⟩
    · intro q hq
      obtain ⟨h4, h5⟩ := idxErase_mem hq
      obtain ⟨h6, h7⟩ := hfwd q h4
      have hq2ne : q.2 ≠ tags.length - 1 := by
        intro he
        have : q.1 = id := by rw [← hidf, hieq, ← he, h7]
        exact h5 this
      refine ⟨by rw [f1]; omega, ?_⟩
      rw [f2 q.2 (by omega), if_neg (by omega)]
      exact h7
    · intro j hj
      rw [f1] at hj
      rw [f2 j hj, if_neg (by omega)]
      have hidj : (tags.getD j default).id ≠ id := by
        intro he
        have := WFcore_ids_inj (j := j) (k := i) ⟨hnd, hfwd, hrev, hlen⟩ (by omega) hi
          (by rw [hidf, he])
        omega
      rw [idxFind_idxErase_ne hidj]
      exact hrev j (by omega)
    · rw [f1]
      omega

lemma adapt_WF (p : Params) (s : State) (h : WF s) : WF (adaptAgeCoarsening p s) := by
  by_cases h5 : s.numReconfigurations = 5 ∨ s.numReconfigurations = 25
  · by_cases hne : shiftFor (optimalOf p s) ≠ s.ageCoarseningShift
    · have htags : (adaptAgeCoarsening p s).tags = s.tags.map (fun t =>
          { t with timestamp :=
              shrDelta t.timestamp s.ageCoarseningShift (shiftFor (optimalOf p s)) }) := by
        simp [adaptAgeCoarsening, h5, hne]
      have hidx : (adaptAgeCoarsening p s).indices = s.indices := by
        simp [adaptAgeCoarsening, h5]
      show WFcore _ _
      rw [htags, hidx]
      exact WFcore_map_id h (fun t => rfl)
    · have htags : (adaptAgeCoarsening p s).tags = s.tags := by
        simp [adaptAgeCoarsening, h5, hne]
      have hidx : (adaptAgeCoarsening p s).indices = s.indices := by
        simp [adaptAgeCoarsening, h5]
      show WFcore _ _
      rw [htags, hidx]
      exact h
  · have htags : (adaptAgeCoarsening p s).tags = s.tags := by
      simp [adaptAgeCoarsening, h5]
    have hidx : (adaptAgeCoarsening p s).indices = s.indices := by
      simp [adaptAgeCoarsening, h5]
    show WFcore _ _
    rw [htags, hidx]
    exact h

lemma reconfigure_WF (p : Params) (s : State) (h : WF s) : WF (reconfigure p s) := by
  have h1 : WF { s with classes := fun c =>
      if c < p.NUM_CLASSES then updateClass p (s.classes c) else s.classes c } := h
  exact adapt_WF p _ h1

lemma updateFinish_WF (p : Params) (req : Request) (pos : Nat) (s : State)
    (hpos : pos < s.tags.length) (h : WF s) : WF (updateFinish p req pos s) := by
  unfold updateFinish
  simp only []
  split
  · exact reconfigure_WF p _ (WFcore_set_same_id h hpos rfl)
  · exact WFcore_set_same_id h hpos rfl

lemma update_WF (p : Params) (id : Nat) (req : Request) (s : State) (h : WF s) :
    WF (update p id req s) := by
  unfold update
  cases hfind : idxFind s.indices id with
  | none =>
    simp only []
    have hset : idxSet s.indices id s.tags.length =
        s.indices ++ [(id, s.tags.length)] := by
      unfold idxSet
      rw [if_neg (by rw [hfind]; simp)]
    refine updateFinish_WF p req s.tags.length _ ?_ ?_
    · simp
    · show WFcore _ _
      rw [hset]
      exact WFcore_insert h hfind rfl
  | some i =>
    simp only []
    have hi : i < s.tags.length := (h.2.1 _ (idxFind_mem hfind)).1
    refine updateFinish_WF p req i _ ?_ ?_
    · simpa using hi
    · exact WFcore_set_same_id h hi rfl

lemma replaced_WF (p : Params) (id : Nat) (s : State) (h : WF s) :
    ∀ s', replaced p id s = .ok s' → WF s' := by
  intro s' hok
  unfold replaced at hok
  cases hfind : idxFind s.indices id with
  | none => rw [hfind] at hok; cases hok
  | some i =>
    rw [hfind] at hok
    simp only [] at hok
    cases hok
    exact WFcore_remove h hfind

lemma tailSum_congr_lt {f g : Nat → ℚ} {M : Nat} (h : ∀ k, k < M → f k = g k) :
    tailSum f M 0 = tailSum g M 0 := by
  unfold tailSum
  refine congrArg List.sum ?_
  refine List.map_congr_left ?_
  intro k hk
  refine h k ?_
  have := List.mem_range'_1.mp hk
  omega

lemma updateFinish_prior (p : Params) (req : Request) (pos : Nat) (s : State)
    (h : PriorOK p s) : PriorOK p (updateFinish p req pos s) := by
  unfold updateFinish
  simp only []
  split
  · intro c hc
    show ((reconfigure p _).classes c).hitDensities (p.MAX_AGE - 1) = _
    rw [reconfigure_hd_last]
    exact h c hc
  · exact fun c hc => h c hc

lemma update_prior (p : Params) (id : Nat) (req : Request) (s : State)
    (h : PriorOK p s) : PriorOK p (update p id req s) := by
  unfold update
  cases hfind : idxFind s.indices id with
  | none =>
    simp only []
    exact updateFinish_prior p req _ _ (fun c hc => h c hc)
  | some i =>
    simp only []
    refine updateFinish_prior p req _ _ ?_
    intro c hc
    show (setClassF s.classes _ _ c).hitDensities (p.MAX_AGE - 1) = _
    unfold setClassF
    split
    · exact h c hc
    · exact h c hc

lemma replaced_prior (p : Params) (id : Nat) (s : State) (s' : State)
    (hrep : replaced p id s = .ok s') (h : PriorOK p s) : PriorOK p s' := by
  unfold replaced at hrep
  cases hfind : idxFind s.indices id with
  | none => rw [hfind] at hrep; cases hrep
  | some i =>
    rw [hfind] at hrep
    simp only [] at hrep
    cases hrep
    intro c hc
    show (setClassF s.classes _ _ c).hitDensities (p.MAX_AGE - 1) = _
    unfold setClassF
    split
    · exact h c hc
    · exact h c hc

lemma step_prior (p : Params) (s : State) (op : Op) (h : PriorOK p s) :
    PriorOK p (step p s op) := by
  cases op with
  | update id req => exact update_prior p id req s h
  | replaced id =>
    unfold step
    simp only []
    cases hrep : replaced p id s with
    | ok s' =>
      simp only [hrep]
      exact replaced_prior p id s s' hrep h
    | error e =>
      simp only [hrep]
      exact h
  | rank req =>
    intro c hc
    rw [(step_rank_fields p s req).1]
    exact h c hc

/-- C1: for every state in which the tag table is empty, rank fails with
the Empty error and returns no victim id. -/
theorem rank_empty_fails (p : Params) (req : Request) (s : State)
    (h : s.tags = []) : rank p req s = .error .Empty := by
  have key : ∀ (l : List Nat) (acc : Option (Nat × ℚ) × State),
      acc.1 = none → acc.2.tags = [] →
      (l.foldl (fun acc _ => rankBody p acc) acc).1 = none := by
    intro l
    refine l.rec ?_ ?_
    · intro acc h1 _; simpa using h1
    · intro b t ih acc h1 h2
      have hb := rankBody_none p acc h1 h2
      simpa using ih (rankBody p acc) hb.1 hb.2
  unfold rank
  simp only [key _ (none, s) rfl h]

/-- Witness for C1 at a freshly constructed ranker. -/
theorem rank_empty_fails_at_fresh :
    rank P8 req1 (init P8 0 0) = .error .Empty :=
  rank_empty_fails P8 req1 (init P8 0 0) rfl

/-- C2: for every id not present in the tag index, replaced fails with
the Unknown error and, as a harness step, leaves the whole ranker state
unchanged. -/
theorem replaced_unknown_fails (p : Params) (id : Nat) (s : State)
    (h : idxFind s.indices id = none) :
    replaced p id s = .error .Unknown ∧ step p s (.replaced id) = s := by
  have h1 : replaced p id s = .error .Unknown := by
    unfold replaced; rw [h]
  exact ⟨h1, by simp [step, h1]⟩

/-- Witness for C2: replacing id 5 on a fresh ranker. -/
theorem replaced_unknown_fails_at_fresh :
    replaced P8 5 (init P8 0 0) = .error .Unknown ∧
      step P8 (init P8 0 0) (.replaced 5) = init P8 0 0 :=
  replaced_unknown_fails P8 5 (init P8 0 0) rfl

/-- Counterexample to C8 as stated: the freshly constructed ranker (the
state reached by the empty call sequence) carries the GDSF prior, and
with the spec's 16-class configuration the density of class 1 at age 0
is 2, outside the unit interval. -/
theorem hitDensities_prior_exceeds_one :
    ((run P8 0 0 []).classes 1).hitDensities 0 = 2 ∧
      ¬ ((run P8 0 0 []).classes 1).hitDensities 0 ≤ 1 := by
  constructor <;> norm_num [run, init, P8, Params.NUM_CLASSES]

/-- C8 (amended): in every reachable state in which at least one
reconfiguration has completed, the densities the model sweep maintains
(every real class, ages up to MAX_AGE - 2) lie in the closed unit
interval; before the first reconfiguration, and at age MAX_AGE - 1
forever, the constructor's GDSF prior is in place and can exceed 1. -/
theorem hitDensities_bounded (p : Params) (hdk : 0 ≤ p.EWMA_DECAY) (seed n0 : Nat)
    (ops : List Op) (hn : 1 ≤ (run p seed n0 ops).numReconfigurations)
    (c : Nat) (hc : c < p.NUM_CLASSES) (a : Nat) (ha : a + 1 < p.MAX_AGE) :
    0 ≤ ((run p seed n0 ops).classes c).hitDensities a ∧
      ((run p seed n0 ops).classes c).hitDensities a ≤ 1 := by
  have key : HistNonneg (run p seed n0 ops) ∧ DensOK p (run p seed n0 ops) := by
    unfold run
    refine foldl_induction (fun s => HistNonneg s ∧ DensOK p s) _ ops _ ⟨?_, ?_⟩ ?_
    · intro c' k
      exact ⟨le_rfl, le_rfl⟩
    · intro hn'
      have h0 : (init p seed n0).numReconfigurations = 0 := rfl
      omega
    · intro s op hs
      exact step_inv8 p hdk s op hs
  exact key.2 hn c hc a ha

/-- Witness for C8 (amended): one update under the reconfigure-every-
update configuration runs the first reconfiguration, after which the
class 0 age 0 density is inside the unit interval. -/
theorem hitDensities_bounded_at :
    0 ≤ ((run P4 0 0 [.update 1 req1]).classes 0).hitDensities 0 ∧
      ((run P4 0 0 [.update 1 req1]).classes 0).hitDensities 0 ≤ 1 :=
  hitDensities_bounded P4 (by norm_num [P4]) 0 0 [.update 1 req1]
    (by norm_num [run, step, update, updateFinish, init, P4, req1, rng0, idxFind,
      idxSet, reconfigure, modelHitDensity, adaptAgeCoarsening])
    0 (by norm_num [P4, Params.NUM_CLASSES]) 0 (by norm_num [P4])

/-- C10: in every reachable state, each real class keeps its constructor
density value (c + 1) / MAX_AGE at the last age bin: the constructor
writes the GDSF prior (c + 1) / (a + 1) and the model sweep rewrites
only ages MAX_AGE - 2 down to 0, so no operation ever recomputes the
last bin. -/
theorem lastBin_keeps_prior (p : Params) (seed n0 : Nat) (ops : List Op) (c : Nat)
    (hc : c < p.NUM_CLASSES) :
    ((run p seed n0 ops).classes c).hitDensities (p.MAX_AGE - 1) =
      ((c : ℚ) + 1) / (p.MAX_AGE : ℚ) := by
  refine (foldl_induction (PriorOK p) _ ops _ ?_ ?_) c hc
  · intro c' hc'
    show (if c' < p.NUM_CLASSES ∧ p.MAX_AGE - 1 < p.MAX_AGE then
        ((c' : ℚ) + 1) / (((p.MAX_AGE - 1 : Nat) : ℚ) + 1) else 0) = _
    rcases Nat.eq_zero_or_pos p.MAX_AGE with hM | hM
    · rw [if_neg (by omega)]
      rw [hM]
      norm_num
    · rw [if_pos ⟨hc', by omega⟩, Nat.cast_sub hM]
      norm_num
  · intro s op hs
    exact step_prior p s op hs

/-- Witness for C10 at the fresh ranker of the 16-class configuration,
class 15: the last-bin density is 16 / 8. -/
theorem lastBin_keeps_prior_at :
    ((run P8 0 0 []).classes 15).hitDensities (P8.MAX_AGE - 1) =
      ((15 : ℚ) + 1) / (P8.MAX_AGE : ℚ) :=
  lastBin_keeps_prior P8 0 0 [] 15 (by norm_num [P8, Params.NUM_CLASSES])

/-- Counterexample to C7 as stated: at a reconfiguration with
numReconfigurations 5 and optimal age coarsening 0 (an idle harness),
the smallest non-negative s with 2^s at least optimal is 0, but the code
sets the shift to 1 (its search loop starts at 1). -/
theorem shift_not_smallest_nonneg :
    (reconfigure P4 stateA).ageCoarseningShift = 1 ∧
      claimShift (optimalOf P4 stateA) = 0 ∧
      optimalOf P4 stateA ≤ 2 ^ (0 : Nat) := by
  refine ⟨?_, ?_, ?_⟩
  · norm_num [reconfigure, adaptAgeCoarsening, modelHitDensity, optimalOf, stateA, P4,
      shiftFor, shiftForAux, updateClass]
  · norm_num [claimShift, optimalOf, stateA, P4, shiftForAux]
  · norm_num [optimalOf, stateA, P4]

/-- C7 (amended): the age-coarsening shift is recomputed exactly at the
reconfigurations where numReconfigurations is 5 or 25; there the new
shift is the smallest positive integer s (the search loop starts at 1,
so 0 is never chosen) with 2^s at least optimal, where optimal is the
EWMA object count divided by AGE_COARSENING_ERROR_TOLERANCE times
MAX_AGE, and afterwards both EWMA accumulators are multiplied by 8. -/
theorem adapt_shift_schedule (p : Params) (s : State) :
    ((s.numReconfigurations ≠ 5 ∧ s.numReconfigurations ≠ 25) →
      (reconfigure p s).ageCoarseningShift = s.ageCoarseningShift) ∧
    ((s.numReconfigurations = 5 ∨ s.numReconfigurations = 25) →
      (reconfigure p s).ageCoarseningShift = shiftFor (optimalOf p s) ∧
      1 ≤ shiftFor (optimalOf p s) ∧
      optimalOf p s ≤ 2 ^ shiftFor (optimalOf p s) ∧
      (∀ j, 1 ≤ j → optimalOf p s ≤ 2 ^ j → shiftFor (optimalOf p s) ≤ j) ∧
      (reconfigure p s).ewmaNumObjects =
        (s.ewmaNumObjects * p.EWMA_DECAY + (s.cacheNumObjects : ℚ)) * 8 ∧
      (reconfigure p s).ewmaNumObjectsMass =
        (s.ewmaNumObjectsMass * p.EWMA_DECAY + 1) * 8) := by
  constructor
  · intro hne
    show (adaptAgeCoarsening p _).ageCoarseningShift = _
    unfold adaptAgeCoarsening
    simp only []
    rw [if_neg (by simpa using hne)]
  · intro h5
    have hs := shiftFor_spec (optimalOf p s)
    refine ⟨?_, hs.1, hs.2.1, hs.2.2, ?_, ?_⟩
    · show (adaptAgeCoarsening p _).ageCoarseningShift = _
      unfold adaptAgeCoarsening
      simp only []
      rw [if_pos (by simpa using h5)]
      rfl
    · show (adaptAgeCoarsening p _).ewmaNumObjects = _
      unfold adaptAgeCoarsening
      simp only []
      rw [if_pos (by simpa using h5)]
    · show (adaptAgeCoarsening p _).ewmaNumObjectsMass = _
      unfold adaptAgeCoarsening
      simp only []
      rw [if_pos (by simpa using h5)]

/-- Witness for C7 (amended) at the sixth reconfiguration of the idle
MAX_AGE 4 configuration. -/
theorem adapt_shift_schedule_at :
    (reconfigure P4 stateA).ageCoarseningShift = shiftFor (optimalOf P4 stateA) ∧
      1 ≤ shiftFor (optimalOf P4 stateA) ∧
      optimalOf P4 stateA ≤ 2 ^ shiftFor (optimalOf P4 stateA) ∧
      (∀ j, 1 ≤ j → optimalOf P4 stateA ≤ 2 ^ j → shiftFor (optimalOf P4 stateA) ≤ j) ∧
      (reconfigure P4 stateA).ewmaNumObjects =
        (stateA.ewmaNumObjects * P4.EWMA_DECAY + (stateA.cacheNumObjects : ℚ)) * 8 ∧
      (reconfigure P4 stateA).ewmaNumObjectsMass =
        (stateA.ewmaNumObjectsMass * P4.EWMA_DECAY + 1) * 8 :=
  (adapt_shift_schedule P4 stateA).2 (Or.inl rfl)

/-- Counterexample to C6 as stated: at a reconfiguration with
numReconfigurations 5 where the recomputed shift is 2 (delta is +2, a
compress), the resident tag with stored timestamp 4 ends with timestamp
1 = 4 right-shifted by 2, not 16 = 4 left-shifted by delta as the claim
asserts. -/
theorem compress_timestamp_not_left_shifted :
    (reconfigure PC stateC).ageCoarseningShift = 2 ∧
      (stateC.tags.getD 0 default).timestamp = 4 ∧
      ((reconfigure PC stateC).tags.getD 0 default).timestamp = 1 ∧
      ¬ ((reconfigure PC stateC).tags.getD 0 default).timestamp = 4 <<< 2 := by
  refine ⟨?_, rfl, ?_, ?_⟩
  · norm_num [reconfigure, adaptAgeCoarsening, modelHitDensity, optimalOf, stateC, PC,
      P4, shiftFor, shiftForAux, updateClass]
  · norm_num [reconfigure, adaptAgeCoarsening, modelHitDensity, optimalOf, stateC, PC,
      P4, shiftFor, shiftForAux, updateClass, shrDelta, Nat.shiftRight_eq_div_pow,
      zeroClass]
  · norm_num [reconfigure, adaptAgeCoarsening, modelHitDensity, optimalOf, stateC, PC,
      P4, shiftFor, shiftForAux, updateClass, shrDelta, Nat.shiftRight_eq_div_pow,
      Nat.shiftLeft_eq, zeroClass]

/-- C6 (amended): at a reconfiguration that recomputes the coarsening
shift with delta = newShift - oldShift positive (compress), every
resident tag's stored timestamp is right-shifted by delta.  When delta
is negative the C++ executes `timestamp >>= delta` with a negative
count, which is undefined behaviour, so no portable statement holds on
the stretch path. -/
theorem compress_shifts_timestamps (p : Params) (s : State)
    (h5 : s.numReconfigurations = 5 ∨ s.numReconfigurations = 25)
    (hlt : s.ageCoarseningShift < shiftFor (optimalOf p s)) :
    (reconfigure p s).tags = s.tags.map (fun t =>
      { t with timestamp :=
          t.timestamp >>> (shiftFor (optimalOf p s) - s.ageCoarseningShift) }) := by
  show (adaptAgeCoarsening p _).tags = _
  unfold adaptAgeCoarsening
  simp only []
  rw [if_pos (by simpa using h5)]
  simp only []
  rw [if_pos (by simpa using Nat.ne_of_gt hlt)]
  refine List.map_congr_left ?_
  intro t _
  show ({ t with timestamp := shrDelta t.timestamp s.ageCoarseningShift _ } : Tag) = _
  unfold shrDelta
  split
  · rfl
  · next hc => exact absurd (le_of_lt hlt) hc

/-- Witness for C6 (amended) at the compress reconfiguration of stateC:
the one resident tag's timestamp 4 becomes 4 >>> 2 = 1. -/
theorem compress_shifts_timestamps_at :
    stateC.numReconfigurations = 5 ∧
      stateC.ageCoarseningShift < shiftFor (optimalOf PC stateC) ∧
      (reconfigure PC stateC).tags = stateC.tags.map (fun t =>
        { t with timestamp :=
            t.timestamp >>> (shiftFor (optimalOf PC stateC) - stateC.ageCoarseningShift) }) :=
  have h : stateC.ageCoarseningShift < shiftFor (optimalOf PC stateC) := by
    norm_num [stateC, optimalOf, PC, P4, shiftFor, shiftForAux]
  ⟨rfl, h, compress_shifts_timestamps PC stateC (Or.inl rfl) h⟩

/-- Counterexample to C9 as stated: at the sixth reconfiguration
(numReconfigurations 5) the shift jumps from 0 to 1 and the compress
rescale runs after the totals were refreshed; stateB's unit of decayed
mass in the last bin is double-counted by the compress (its block sum
already absorbed it and the last bin is kept), so totalHits stays 9/10
while the bins now sum to 9/5 - a discrepancy far beyond floating-point
tolerance. -/
theorem totals_mismatch_at_rescale :
    stateB.numReconfigurations = 5 ∧
      ((reconfigure PC stateB).classes 0).totalHits = 9 / 10 ∧
      tailSum ((reconfigure PC stateB).classes 0).hits PC.MAX_AGE 0 = 9 / 5 ∧
      ¬ ((reconfigure PC stateB).classes 0).totalHits =
          tailSum ((reconfigure PC stateB).classes 0).hits PC.MAX_AGE 0 := by
  have h1 : ((reconfigure PC stateB).classes 0).totalHits = 9 / 10 := by
    norm_num [reconfigure, adaptAgeCoarsening, modelHitDensity, modelHitDensityClass,
      optimalOf, stateB, PC, P4, shiftFor, shiftForAux, updateClass, tailSum,
      compressHist, stretchHist, setF, setClassF, zeroClass, eps, Params.NUM_CLASSES,
      List.range', List.range_succ, Nat.shiftLeft_eq, Nat.shiftRight_eq_div_pow,
      List.sum_cons, List.sum_nil, sweepBody]
  have h2 : tailSum ((reconfigure PC stateB).classes 0).hits PC.MAX_AGE 0 = 9 / 5 := by
    norm_num [reconfigure, adaptAgeCoarsening, modelHitDensity, modelHitDensityClass,
      optimalOf, stateB, PC, P4, shiftFor, shiftForAux, updateClass, tailSum,
      compressHist, stretchHist, setF, setClassF, zeroClass, eps, Params.NUM_CLASSES,
      List.range', List.range_succ, Nat.shiftLeft_eq, Nat.shiftRight_eq_div_pow,
      List.sum_cons, List.sum_nil, sweepBody]
  refine ⟨rfl, h1, h2, ?_⟩
  rw [h1, h2]
  norm_num

/-- C9 (amended): immediately after every reconfigure() in which
adaptAgeCoarsening leaves the histograms alone (numReconfigurations not
5 and not 25), each class's totalHits equals the sum of its hit bins and
totalEvictions the sum of its eviction bins, exactly; at the two
rescaling reconfigurations the totals keep their pre-rescale values and
can differ from the post-rescale bin sums. -/
theorem totals_match_bins_after_reconfigure (p : Params) (s : State)
    (h5 : s.numReconfigurations ≠ 5) (h25 : s.numReconfigurations ≠ 25)
    (c : Nat) (hc : c < p.NUM_CLASSES) :
    ((reconfigure p s).classes c).totalHits =
      tailSum ((reconfigure p s).classes c).hits p.MAX_AGE 0 ∧
    ((reconfigure p s).classes c).totalEvictions =
      tailSum ((reconfigure p s).classes c).evictions p.MAX_AGE 0 := by
  have hfinal : (reconfigure p s).classes c =
      modelHitDensityClass p (updateClass p (s.classes c)) := by
    show (modelHitDensity p (adaptAgeCoarsening p _)).classes c = _
    unfold adaptAgeCoarsening
    simp only []
    rw [if_neg (by simp [h5, h25])]
    unfold modelHitDensity
    simp only []
    rw [if_pos hc]
    show modelHitDensityClass p ((fun c =>
      if c < p.NUM_CLASSES then updateClass p (s.classes c) else s.classes c) c) = _
    simp only []
    rw [if_pos hc]
  rw [hfinal]
  constructor
  · show (updateClass p (s.classes c)).totalHits =
      tailSum (updateClass p (s.classes c)).hits p.MAX_AGE 0
    show tailSum (fun a => (s.classes c).hits a * p.EWMA_DECAY) p.MAX_AGE 0 = _
    refine (tailSum_congr_lt ?_).symm
    intro k hk
    show (if k < p.MAX_AGE then (s.classes c).hits k * p.EWMA_DECAY
      else (s.classes c).hits k) = _
    rw [if_pos hk]
  · show (updateClass p (s.classes c)).totalEvictions =
      tailSum (updateClass p (s.classes c)).evictions p.MAX_AGE 0
    show tailSum (fun a => (s.classes c).evictions a * p.EWMA_DECAY) p.MAX_AGE 0 = _
    refine (tailSum_congr_lt ?_).symm
    intro k hk
    show (if k < p.MAX_AGE then (s.classes c).evictions k * p.EWMA_DECAY
      else (s.classes c).evictions k) = _
    rw [if_pos hk]

/-- C5: if the tag-table and index invariant holds, it still holds after
any completed update and after any completed replaced: every index entry
points below the end of the tag sequence at a tag carrying its id, every
tag position is found under its tag's id, keys are unique, and the index
and tag sequence have equal sizes (so after a swap-with-last removal the
moved tag's entry is fixed and no entry refers to the removed
position). -/
theorem tag_index_invariant (p : Params) (s : State) (hWF : WF s) (id : Nat)
    (req : Request) :
    WF (update p id req s) ∧ ∀ s', replaced p id s = .ok s' → WF s' :=
  ⟨update_WF p id req s hWF, replaced_WF p id s hWF⟩

/-- Witness for C5 after two inserts, updating and replacing a resident
id. -/
theorem tag_index_invariant_at :
    WF (update P8 1 req1 (run P8 0 0 [.update 1 req1, .update 2 req1])) ∧
      ∀ s', replaced P8 1 (run P8 0 0 [.update 1 req1, .update 2 req1]) = .ok s' →
        WF s' :=
  tag_index_invariant P8 (run P8 0 0 [.update 1 req1, .update 2 req1])
    (by unfold WF WFcore; decide) 1 req1

/-- Counterexample to C3's concrete scenario: from a fresh ranker with
MAX_AGE 8 and ACCS_PER_RECONFIGURATION 1000000, after update(1),
update(2), update(1) the third update hits tag 1 at age 2 (timestamp 2
minus stored timestamp 0), so the hit bin at age 1 of tag 1's class is
still 0 - not 1 - whether the class is read before or after the hit
rolls the tag's hit-age fields; the timestamp does equal 3. -/
theorem s3_hit_bin_one_is_empty :
    ((run P8 0 0 [.update 1 req1, .update 2 req1, .update 1 req1]).classes
        (getClass P8
          ((run P8 0 0 [.update 1 req1, .update 2 req1]).tags.getD 0 default))).hits 1
      = 0 ∧
    ((run P8 0 0 [.update 1 req1, .update 2 req1, .update 1 req1]).classes
        (getClass P8
          ((run P8 0 0 [.update 1 req1, .update 2 req1, .update 1 req1]).tags.getD 0
            default))).hits 1 = 0 ∧
    (run P8 0 0 [.update 1 req1, .update 2 req1, .update 1 req1]).timestamp = 3 ∧
    (0 : ℚ) ≠ 1 := by
  refine ⟨?_, ?_, ?_, by norm_num⟩ <;>
    norm_num [run, step, update, updateFinish, init, P8, req1, rng0, idxFind, idxSet,
      getAge, getClass, hitAgeClass, log2b, log2bAux, setF, setClassF,
      Params.NUM_CLASSES]

/-- C3 (amended): when id is present and the call does not trigger a
reconfiguration, update increments the hit bin of the tag's pre-update
class at the tag's pre-update age by exactly 1 and then rolls the tag's
hit-age fields (lastLastHitAge takes the old lastHitAge, lastHitAge the
computed age); in the S3 scenario the third update hits at age 2, so the
bin at age 2 of tag 1's class holds 1 and the timestamp is 3. -/
theorem update_hit_accounting :
    (∀ (p : Params) (id : Nat) (req : Request) (s : State) (i : Nat),
      idxFind s.indices id = some i → i < s.tags.length → 1 < s.nextReconfiguration →
      (((update p id req s).classes (getClass p (s.tags.getD i default))).hits
          (getAge p s.ageCoarseningShift s.timestamp (s.tags.getD i default)).1 =
        ((s.classes (getClass p (s.tags.getD i default))).hits
          (getAge p s.ageCoarseningShift s.timestamp (s.tags.getD i default)).1) + 1) ∧
      ((update p id req s).tags.getD i default).lastHitAge =
        (getAge p s.ageCoarseningShift s.timestamp (s.tags.getD i default)).1 ∧
      ((update p id req s).tags.getD i default).lastLastHitAge =
        (s.tags.getD i default).lastHitAge) ∧
    ((run P8 0 0 [.update 1 req1, .update 2 req1, .update 1 req1]).classes
        (getClass P8
          ((run P8 0 0 [.update 1 req1, .update 2 req1]).tags.getD 0 default))).hits 2
      = 1 ∧
    (run P8 0 0 [.update 1 req1, .update 2 req1, .update 1 req1]).timestamp = 3 := by
  refine ⟨?_, ?_, ?_⟩
  · intro p id req s i hfind hlen hnr
    simp only [update, hfind, updateFinish]
    rw [if_neg (show ¬ (s.nextReconfiguration - 1 = 0) by omega)]
    refine ⟨?_, ?_, ?_⟩
    · simp [setClassF, setF]
    · rw [getD_set_self (by simpa using hlen), getD_set_self hlen]
    · rw [getD_set_self (by simpa using hlen), getD_set_self hlen]
  · norm_num [run, step, update, updateFinish, init, P8, req1, rng0, idxFind, idxSet,
      getAge, getClass, hitAgeClass, log2b, log2bAux, setF, setClassF,
      Params.NUM_CLASSES]
  · norm_num [run, step, update, updateFinish, init, P8, req1, rng0, idxFind, idxSet,
      getAge, getClass, hitAgeClass, log2b, log2bAux, setF, setClassF,
      Params.NUM_CLASSES]

/-- Witness for C3 (amended): the general hit-path facts instantiated at
the third update of the S3 scenario. -/
theorem update_hit_accounting_at :
    (((update P8 1 req1 (run P8 0 0 [.update 1 req1, .update 2 req1])).classes
        (getClass P8
          ((run P8 0 0 [.update 1 req1, .update 2 req1]).tags.getD 0 default))).hits
        (getAge P8 (run P8 0 0 [.update 1 req1, .update 2 req1]).ageCoarseningShift
          (run P8 0 0 [.update 1 req1, .update 2 req1]).timestamp
          ((run P8 0 0 [.update 1 req1, .update 2 req1]).tags.getD 0 default)).1 =
      (((run P8 0 0 [.update 1 req1, .update 2 req1]).classes
        (getClass P8
          ((run P8 0 0 [.update 1 req1, .update 2 req1]).tags.getD 0 default))).hits
        (getAge P8 (run P8 0 0 [.update 1 req1, .update 2 req1]).ageCoarseningShift
          (run P8 0 0 [.update 1 req1, .update 2 req1]).timestamp
          ((run P8 0 0 [.update 1 req1, .update 2 req1]).tags.getD 0 default)).1) + 1) ∧
    ((update P8 1 req1 (run P8 0 0 [.update 1 req1, .update 2 req1])).tags.getD 0
        default).lastHitAge =
      (getAge P8 (run P8 0 0 [.update 1 req1, .update 2 req1]).ageCoarseningShift
        (run P8 0 0 [.update 1 req1, .update 2 req1]).timestamp
        ((run P8 0 0 [.update 1 req1, .update 2 req1]).tags.getD 0 default)).1 ∧
    ((update P8 1 req1 (run P8 0 0 [.update 1 req1, .update 2 req1])).tags.getD 0
        default).lastLastHitAge =
      ((run P8 0 0 [.update 1 req1, .update 2 req1]).tags.getD 0 default).lastHitAge :=
  update_hit_accounting.1 P8 1 req1 (run P8 0 0 [.update 1 req1, .update 2 req1]) 0
    (by decide) (by decide) (by decide)

/-- Witness for C9 (amended): the first reconfiguration of a fresh
MAX_AGE 4 ranker (numReconfigurations 0) conserves the totals. -/
theorem totals_match_bins_after_reconfigure_at :
    ((reconfigure P4 (init P4 0 0)).classes 0).totalHits =
      tailSum ((reconfigure P4 (init P4 0 0)).classes 0).hits P4.MAX_AGE 0 ∧
    ((reconfigure P4 (init P4 0 0)).classes 0).totalEvictions =
      tailSum ((reconfigure P4 (init P4 0 0)).classes 0).evictions P4.MAX_AGE 0 :=
  totals_match_bins_after_reconfigure P4 (init P4 0 0) (by decide) (by decide) 0
    (by decide)

end LHD
